import Mathlib

/-!
# Stage laser model (`libstage/model_laser.cc`)

A shallow embedding of `Stg::ModelLaser` and a verification of its scan
algorithm.

Conventions of the embedding

* `double` values are exact rationals (`ℚ`).
* `unsigned int` / `uint32_t` values are natural numbers below `2^32`;
  every arithmetic operation of the source on them is reduced modulo `2^32`
  (`uadd`, `usub`).  `int` values are integers.
* The sample buffer `samples` is a list; the `NULL` pointer is the empty list
  (`g_renew` with a count of zero frees the block and returns `NULL`).
  An access outside the buffer is undefined behaviour and makes the
  operation fail with `Fault.outOfBounds`.
* Loops that the source does not bound take a `fuel` argument and fail with
  `Fault.outOfFuel` when it is exhausted.
* The ray caster of the world, the `LaserBright` constant and the contents of
  freshly allocated memory are parameters (`World`).
-/

namespace Stg

/-! ## Machine integers -/

/-- The modulus of `unsigned int` arithmetic. -/
def UINT : Nat := 2 ^ 32

/-- Addition of two `unsigned int` values. -/
def uadd (a b : Nat) : Nat := (a + b) % UINT

/-- Subtraction of two `unsigned int` values (both below `2^32`). -/
def usub (a b : Nat) : Nat := (a + UINT - b) % UINT

/-- Conversion of an `int` to `unsigned int`. -/
def toUInt (v : Int) : Nat := (v % (UINT : Int)).toNat

/-- Conversion of an `unsigned int` to `int`. -/
def toInt (n : Nat) : Int := if n < 2 ^ 31 then (n : Int) else (n : Int) - (UINT : Int)

/-! ## Data -/

/-- The part of a `Model` that the laser looks at: its identity and
`vis.laser_return`. -/
structure Model where
  id : Nat
  laser_return : Int
deriving DecidableEq, Repr

/-- The result of one ray cast: the range and the model hit, if any. -/
structure stg_raytrace_result_t where
  range : ℚ
  mod : Option Model
deriving DecidableEq, Repr

/-- One laser sample. -/
structure stg_laser_sample_t where
  range : ℚ
  reflectance : ℚ
deriving DecidableEq, Repr

/-- The range bounds of a laser configuration. -/
structure stg_range_bounds_t where
  min : ℚ
  max : ℚ
deriving DecidableEq, Repr

/-- The laser configuration exchanged by `GetConfig` and `SetConfig`. -/
structure stg_laser_cfg_t where
  sample_count : Nat
  range_bounds : stg_range_bounds_t
  fov : ℚ
  resolution : Nat
  interval : Nat
deriving DecidableEq, Repr

/-- The data members of `ModelLaser` (with `interval` of the base class). -/
structure ModelLaser where
  data_dirty : Bool
  samples : List stg_laser_sample_t
  sample_count : Nat
  range_min : ℚ
  range_max : ℚ
  fov : ℚ
  resolution : Nat
  interval : Nat
deriving DecidableEq, Repr

/-- The surroundings of a laser during one `Update`: the ray caster
(`Model::Raytrace` at a ray heading and a ray length, with the fixed match
function and z test), the constant `LaserBright`, and what freshly allocated
sample memory holds. -/
structure World where
  Raytrace : ℚ → ℚ → stg_raytrace_result_t
  LaserBright : Int
  fresh : Nat → stg_laser_sample_t

/-- The properties of the laser's worldfile entity, `none` when the entity
does not set the property. -/
structure Worldfile where
  samples : Option Int
  range_min : Option ℚ
  range_max : Option ℚ
  fov : Option ℚ
  resolution : Option Int

/-- Modelled from the spec: the class declaration of `ModelLaser` (`stage.hh`)
is not among the sources.  The spec gives `sampleCount` and `resolution` as
unsigned integers, and the defaults and loop counters of this file are
`unsigned int`: both fields are `uint32_t`, below `2^32`. -/
def ModelLaser.wf (s : ModelLaser) : Prop :=
  s.sample_count < UINT ∧ s.resolution < UINT

instance (s : ModelLaser) : Decidable s.wf := by
  unfold ModelLaser.wf; infer_instance

/-! ## Defaults and construction -/

def DEFAULT_MINRANGE : ℚ := 0
def DEFAULT_MAXRANGE : ℚ := 8
/-- The `double` nearest to pi (`M_PI`). -/
def DEFAULT_FOV : ℚ := 884279719003555 / 281474976710656
def DEFAULT_SAMPLES : Nat := 180
def DEFAULT_INTERVAL_MS : Nat := 100
def DEFAULT_RESOLUTION : Nat := 1

/-- The constructor `ModelLaser::ModelLaser`. -/
def ModelLaser.new : ModelLaser :=
  { data_dirty := true
    samples := []
    sample_count := DEFAULT_SAMPLES
    range_min := DEFAULT_MINRANGE
    range_max := DEFAULT_MAXRANGE
    fov := DEFAULT_FOV
    resolution := DEFAULT_RESOLUTION
    interval := DEFAULT_INTERVAL_MS * 1000 }

/-! ## Memory -/

/-- The call `g_renew( stg_laser_sample_t, old, n )`: a block of `n` samples
that keeps the old contents as far as they go; the rest is whatever the
allocator hands out. -/
def g_renew (fresh : Nat → stg_laser_sample_t) (old : List stg_laser_sample_t)
    (n : Nat) : List stg_laser_sample_t :=
  (List.range n).map fun i => (old[i]?).getD (fresh i)

/-- Why an operation of the model does not return: it accessed memory outside
the sample buffer, or its loop did not end within the fuel given. -/
inductive Fault where
  | outOfBounds
  | outOfFuel
deriving DecidableEq, Repr

/-- A store to `buf[i]`, computed from the old element. -/
def store (buf : List stg_laser_sample_t) (i : Nat)
    (f : stg_laser_sample_t → stg_laser_sample_t) :
    Except Fault (List stg_laser_sample_t) :=
  match buf[i]? with
  | none => .error .outOfBounds
  | some x => .ok (buf.set i (f x))

/-! ## Worldfile access -/

/-- The call `wf->ReadInt( entity, name, default )`. -/
def ReadInt (v : Option Int) (dflt : Int) : Int := v.getD dflt

/-- The call `wf->ReadLength( entity, name, default )`, in metres. -/
def ReadLength (v : Option ℚ) (dflt : ℚ) : ℚ := v.getD dflt

/-- The call `wf->ReadAngle( entity, name, default )`, in radians. -/
def ReadAngle (v : Option ℚ) (dflt : ℚ) : ℚ := v.getD dflt

/-! ## Operations -/

/-- The method `ModelLaser::Load`. -/
def Load (f : Worldfile) (s : ModelLaser) : ModelLaser :=
  let sample_count := toUInt (ReadInt f.samples (toInt s.sample_count))
  let range_min := ReadLength f.range_min s.range_min
  let range_max := ReadLength f.range_max s.range_max
  let fov := ReadAngle f.fov s.fov
  let resolution := toUInt (ReadInt f.resolution (toInt s.resolution))
  let resolution := if resolution < 1 then 1 else resolution
  { s with
    sample_count := sample_count
    range_min := range_min
    range_max := range_max
    fov := fov
    resolution := resolution }

/-- The method `ModelLaser::GetConfig`. -/
def GetConfig (s : ModelLaser) : stg_laser_cfg_t :=
  { sample_count := s.sample_count
    range_bounds := { min := s.range_min, max := s.range_max }
    fov := s.fov
    resolution := s.resolution
    interval := s.interval }

/-- The method `ModelLaser::SetConfig`. -/
def SetConfig (cfg : stg_laser_cfg_t) (s : ModelLaser) : ModelLaser :=
  { s with
    range_min := cfg.range_bounds.min
    range_max := cfg.range_bounds.max
    fov := cfg.fov
    resolution := cfg.resolution
    interval := cfg.interval }

/-- The function `laser_raytrace_match`.  The models are compared by
identity; the third argument, a `const void*`, is not looked at. -/
def laser_raytrace_match (hit finder : Model) (_dummy : Option Nat) : Bool :=
  (hit.id != finder.id) && decide (hit.laser_return > 0)

/-- The method `ModelLaser::GetSamples`: the buffer and the count reported. -/
def GetSamples (s : ModelLaser) : List stg_laser_sample_t × Nat :=
  (s.samples, s.sample_count)

/-- The method `ModelLaser::SetSamples`.  The block is renewed and filled
for the sample count the model had before the call; reading more samples
than the caller supplied is out of bounds. -/
def SetSamples (W : World) (samples : List stg_laser_sample_t) (count : Nat)
    (s : ModelLaser) : Except Fault ModelLaser :=
  let buf := g_renew W.fresh s.samples s.sample_count
  if s.sample_count ≤ samples.length then
    let buf := samples.take s.sample_count ++ buf.drop s.sample_count
    .ok { s with samples := buf, sample_count := count, data_dirty := true }
  else .error .outOfBounds

/-! ## The scan -/

/-- The divisor of `sample_incr`: `(double)(sample_count-1)`, the subtraction
done on `unsigned int`. -/
def sample_incr_den (s : ModelLaser) : Nat := usub s.sample_count 1

/-- The bearing step `fov / (double)(sample_count-1)`. -/
def sample_incr (s : ModelLaser) : ℚ := s.fov / (sample_incr_den s : ℚ)

/-- The reflectance stored for a cast: high when a model was hit and it
reflects brightly. -/
def reflectanceOf (W : World) (r : stg_raytrace_result_t) : ℚ :=
  match r.mod with
  | some m => if m.laser_return ≥ W.LaserBright then 1 else 0
  | none => 0

/-- One entry of the record of ray casts: the sample index, the ray heading
and the ray length. -/
structure Cast where
  index : Nat
  bearing : ℚ
  length : ℚ
deriving DecidableEq, Repr

/-- The state of the scan while `Update` runs. -/
structure Scan where
  samples : List stg_laser_sample_t
  bearing : ℚ
  casts : List Cast
deriving DecidableEq, Repr

/-- The first loop of `Update`, from counter value `t`:
`for( t; t<sample_count; t += resolution )`. -/
def castLoop (W : World) (s : ModelLaser) : Nat → Nat → Scan → Except Fault Scan
  | 0, _, _ => .error .outOfFuel
  | fuel + 1, t, sc =>
    if t < s.sample_count then
      let sample := W.Raytrace sc.bearing s.range_max
      match store sc.samples t (fun x => { x with range := sample.range }) with
      | .error e => .error e
      | .ok b1 =>
        match store b1 t (fun x => { x with reflectance := reflectanceOf W sample }) with
        | .error e => .error e
        | .ok b2 =>
          castLoop W s fuel (uadd t s.resolution)
            { samples := b2
              bearing := sc.bearing + sample_incr s
              casts := sc.casts ++ [⟨t, sc.bearing, s.range_max⟩] }
    else .ok sc

/-- The inner interpolation loop at boundary `t`, from counter value `g`:
`for( g; g<resolution; g++ )`. -/
def gapLoop (s : ModelLaser) (t : Nat) :
    Nat → Nat → List stg_laser_sample_t → Except Fault (List stg_laser_sample_t)
  | 0, _, _ => .error .outOfFuel
  | fuel + 1, g, buf =>
    if g < s.resolution then
      if t ≥ s.sample_count then .ok buf
      else
        match buf[usub t s.resolution]? with
        | none => .error .outOfBounds
        | some src =>
          match store buf (usub t g) (fun _ => src) with
          | .error e => .error e
          | .ok b1 =>
            match b1[t]?, b1[usub t s.resolution]? with
            | some l, some r =>
              let left := l.range
              let right := r.range
              match store b1 (usub t g)
                  (fun x => { x with range := left - (g : ℚ) * (left - right) / (s.resolution : ℚ) }) with
              | .error e => .error e
              | .ok b2 => gapLoop s t fuel (uadd g 1) b2
            | _, _ => .error .outOfBounds
    else .ok buf

/-- One pass through the body of the inner interpolation loop at boundary `t`
and counter value `g`, behind the guard: the `memcpy` from
`samples[t-resolution]` to `samples[t-g]`, then the assignment of the
interpolated range to `samples[t-g]`. -/
def gapBody (s : ModelLaser) (t g : Nat) (buf : List stg_laser_sample_t) :
    Except Fault (List stg_laser_sample_t) :=
  match buf[usub t s.resolution]? with
  | none => .error .outOfBounds
  | some src =>
    match store buf (usub t g) (fun _ => src) with
    | .error e => .error e
    | .ok b1 =>
      match b1[t]?, b1[usub t s.resolution]? with
      | some l, some r =>
        let left := l.range
        let right := r.range
        store b1 (usub t g)
          (fun x => { x with range := left - (g : ℚ) * (left - right) / (s.resolution : ℚ) })
      | _, _ => .error .outOfBounds

/-- The outer interpolation loop, from counter value `t`:
`for( t; t<sample_count; t+=resolution )`. -/
def interpLoop (s : ModelLaser) :
    Nat → Nat → List stg_laser_sample_t → Except Fault (List stg_laser_sample_t)
  | 0, _, _ => .error .outOfFuel
  | fuel + 1, t, buf =>
    if t < s.sample_count then
      match gapLoop s t (s.resolution + 1) 1 buf with
      | .error e => .error e
      | .ok b => interpLoop s fuel (uadd t s.resolution) b
    else .ok buf

/-- What `Update` leaves behind: the model and the record of the casts made. -/
structure Updated where
  model : ModelLaser
  casts : List Cast
deriving DecidableEq, Repr

/-- The method `ModelLaser::Update`. -/
def Update (W : World) (fuel : Nat) (s : ModelLaser) : Except Fault Updated :=
  let bearing := - s.fov / 2
  let samples := g_renew W.fresh s.samples s.sample_count
  match castLoop W s fuel 0 { samples := samples, bearing := bearing, casts := [] } with
  | .error e => .error e
  | .ok sc =>
    let done : Except Fault (List stg_laser_sample_t) :=
      if s.resolution > 1 then interpLoop s fuel s.resolution sc.samples
      else .ok sc.samples
    match done with
    | .error e => .error e
    | .ok buf =>
      .ok { model := { s with samples := buf, data_dirty := true }, casts := sc.casts }

/-! ## Specification functions -/

/-- The heading of the `k`-th ray of a scan (counting from zero). -/
def bearingAt (s : ModelLaser) (k : Nat) : ℚ := - s.fov / 2 + (k : ℚ) * sample_incr s

/-- The sample that the `k`-th cast of a scan stores. -/
def castSample (W : World) (s : ModelLaser) (k : Nat) : stg_laser_sample_t :=
  let sample := W.Raytrace (bearingAt s k) s.range_max
  { range := sample.range, reflectance := reflectanceOf W sample }

/-- The record of the first `n` casts of a scan. -/
def castLog (s : ModelLaser) (n : Nat) : List Cast :=
  (List.range n).map fun k => ⟨k * s.resolution, bearingAt s k, s.range_max⟩

/-- The number of casts of a scan: `ceil(sample_count / resolution)`. -/
def numCasts (s : ModelLaser) : Nat := (s.sample_count + s.resolution - 1) / s.resolution

/-- The last index that a scan casts. -/
def lastCast (s : ModelLaser) : Nat := s.resolution * ((s.sample_count - 1) / s.resolution)

/-- The loop counter `t` does not wrap around before the loops end. -/
def noWrap (s : ModelLaser) : Prop := lastCast s + s.resolution < UINT

instance (s : ModelLaser) : Decidable (noWrap s) := by
  unfold noWrap; infer_instance

/-- The buffer after the first `k` casts over the block `base`. -/
def CastInv (W : World) (s : ModelLaser) (base : List stg_laser_sample_t) (k : Nat)
    (sc : Scan) : Prop :=
  sc.bearing = bearingAt s k ∧ sc.casts = castLog s k ∧
  sc.samples.length = s.sample_count ∧
  ∀ i, i < s.sample_count → sc.samples[i]? =
    if s.resolution ∣ i ∧ i < k * s.resolution then some (castSample W s (i / s.resolution))
    else base[i]?

/-- The sample that the interpolation pass stores at a skipped index `i`,
given the samples `c k` stored by the casts. -/
def interpSample (c : Nat → stg_laser_sample_t) (r i : Nat) : stg_laser_sample_t :=
  let upper := (c (i / r + 1)).range
  let lower := (c (i / r)).range
  { range := upper - ((r - i % r : Nat) : ℚ) * (upper - lower) / (r : ℚ)
    reflectance := (c (i / r)).reflectance }

/-- The buffer while the interpolation pass is at boundary `k * resolution`
with inner counter `g`: the gaps below the previous boundary are filled, the
current gap is filled above index `k * resolution - g`. -/
def GapInv (c : Nat → stg_laser_sample_t) (s : ModelLaser) (B0 : List stg_laser_sample_t)
    (k g : Nat) (buf : List stg_laser_sample_t) : Prop :=
  buf.length = s.sample_count ∧
  ∀ i, i < s.sample_count → buf[i]? =
    if ¬ s.resolution ∣ i ∧
        (i + s.resolution < k * s.resolution ∨ (k * s.resolution < i + g ∧ i < k * s.resolution))
    then some (interpSample c s.resolution i)
    else B0[i]?

/-- The sample that a completed scan holds at index `i`: the cast made for
`i` when `i` is a multiple of the resolution, the interpolation between the
two neighbouring casts when the next boundary lies inside the scan, and
otherwise what the renewed block held before. -/
def scanAt (W : World) (s : ModelLaser) (i : Nat) : Option stg_laser_sample_t :=
  if s.resolution ∣ i then some (castSample W s (i / s.resolution))
  else if (i / s.resolution + 1) * s.resolution < s.sample_count then
    some (interpSample (castSample W s) s.resolution i)
  else (g_renew W.fresh s.samples s.sample_count)[i]?

/-- The ray angle at which `ModelLaser::DataVisualize` plots sample `i`:
`(s * (fov / (sample_count-1))) - fov/2.0`. -/
def ray_angle (s : ModelLaser) (i : Nat) : ℚ :=
  (i : ℚ) * (s.fov / ((usub s.sample_count 1 : Nat) : ℚ)) - s.fov / 2

/-! ## Example scenes -/

/-- A world whose range grows with the ray heading and whose only bright
model lies to the far right of the laser. -/
def exWorld : World :=
  { Raytrace := fun b len =>
      { range := len + b, mod := if b < -1 then some ⟨7, 2⟩ else none }
    LaserBright := 2
    fresh := fun _ => ⟨-1, -1⟩ }

/-- Five samples over a field of view of four radians, every second one cast. -/
def ex5by2 : ModelLaser :=
  { ModelLaser.new with sample_count := 5, resolution := 2, fov := 4 }

/-- The scan of `ex5by2` in `exWorld`. -/
def ex5by2_scan : Updated :=
  { model := { ex5by2 with
      samples := [⟨6, 1⟩, ⟨13 / 2, 1⟩, ⟨7, 0⟩, ⟨15 / 2, 0⟩, ⟨8, 0⟩]
      data_dirty := true }
    casts := [⟨0, -2, 8⟩, ⟨2, -1, 8⟩, ⟨4, 0, 8⟩] }

/-- Four samples over a field of view of six radians, every third one cast. -/
def ex4by3 : ModelLaser :=
  { ModelLaser.new with sample_count := 4, resolution := 3, fov := 6 }

/-- The scan of `ex4by3` in `exWorld`. -/
def ex4by3_scan : Updated :=
  { model := { ex4by3 with
      samples := [⟨5, 1⟩, ⟨17 / 3, 1⟩, ⟨19 / 3, 1⟩, ⟨7, 0⟩]
      data_dirty := true }
    casts := [⟨0, -3, 8⟩, ⟨3, -1, 8⟩] }

/-- Four samples, every second one cast, over a buffer left by an earlier scan. -/
def ex4by2 (last : stg_laser_sample_t) : ModelLaser :=
  { ModelLaser.new with
    sample_count := 4, resolution := 2, fov := 6
    samples := [⟨9, 0⟩, ⟨9, 0⟩, ⟨9, 0⟩, last] }

/-- The scan of `ex4by2 last` in `exWorld`. -/
def ex4by2_scan (last : stg_laser_sample_t) : Updated :=
  { model := { ex4by2 last with
      samples := [⟨5, 1⟩, ⟨6, 1⟩, ⟨7, 0⟩, last]
      data_dirty := true }
    casts := [⟨0, -3, 8⟩, ⟨2, -1, 8⟩] }

/-- A model holding a scan of two samples. -/
def exTwo : ModelLaser :=
  { ModelLaser.new with sample_count := 2, samples := [⟨1, 0⟩, ⟨2, 0⟩] }

/-- Three samples to inject with `SetSamples`. -/
def exInjected : List stg_laser_sample_t := [⟨3, 0⟩, ⟨4, 1⟩, ⟨5, 0⟩]

/-- A worldfile entity that asks for one sample over a field of view of four. -/
def exOneSample : Worldfile :=
  { samples := some 1, range_min := none, range_max := none, fov := some 4, resolution := none }

/-- A worldfile entity that sets no laser property. -/
def exEmptyEntity : Worldfile :=
  { samples := none, range_min := none, range_max := none, fov := none, resolution := none }

/-- A configuration with resolution zero. -/
def exZeroResolution : stg_laser_cfg_t :=
  { sample_count := 180, range_bounds := ⟨0, 8⟩, fov := 4, resolution := 0, interval := 100000 }

/-- A worldfile entity that sets only the resolution. -/
def exResolution (v : Int) : Worldfile :=
  { samples := none, range_min := none, range_max := none, fov := none, resolution := some v }

/-- An empty world: every ray runs to its full length and hits nothing. -/
def exEmptyWorld : World :=
  { Raytrace := fun _ len => { range := len, mod := none }
    LaserBright := 2
    fresh := fun _ => ⟨-1, -1⟩ }

/-- The freshly constructed model set to five samples (field of view pi,
resolution 1). -/
def ex5by1 : ModelLaser :=
  { ModelLaser.new with sample_count := 5 }

/-- A world with a dull obstacle half a metre away in every direction. -/
def exNearWorld : World :=
  { Raytrace := fun _ _ => { range := 1 / 2, mod := some ⟨7, 1⟩ }
    LaserBright := 2
    fresh := fun _ => ⟨-1, -1⟩ }

/-- Two samples with a minimum range of one metre. -/
def exMinRange : ModelLaser :=
  { ModelLaser.new with sample_count := 2, range_min := 1, fov := 4 }

/-- A world whose obstacles to the right of the laser are at half the ray
length, the nearest of them bright. -/
def exHalfWorld : World :=
  { Raytrace := fun b len =>
      { range := if b < 0 then len / 2 else len, mod := if b < -1 then some ⟨7, 2⟩ else none }
    LaserBright := 2
    fresh := fun _ => ⟨-1, -1⟩ }

/-- A configuration on which the loop counter wraps: `5 * 2^29 + 1` samples at
resolution `5 * 2^29`. -/
def exWrap : ModelLaser :=
  { ModelLaser.new with sample_count := 2684354561, resolution := 2684354560 }

/-- A finder and two candidate models: a visible one and a transparent one. -/
def exFinder : Model := ⟨1, 1⟩
def exVisible : Model := ⟨2, 1⟩
def exTransparent : Model := ⟨3, 0⟩

/-- A second configuration on which the loop counter wraps: `2^31 + 4` samples
at resolution `2^31 + 1` over a field of view of four radians, with a buffer
of that length left by an earlier scan. -/
def exSweep : ModelLaser :=
  { ModelLaser.new with
    sample_count := 2147483652, resolution := 2147483649, fov := 4
    samples := List.replicate 2147483652 ⟨9, 0⟩ }

/-- A world with a bright obstacle one metre away at the heading -2 and
beyond, and a dull wall five metres away everywhere else. -/
def exEdgeWorld : World :=
  { Raytrace := fun b _ =>
      if b ≤ -2 then { range := 1, mod := some ⟨7, 2⟩ } else { range := 5, mod := none }
    LaserBright := 2
    fresh := fun _ => ⟨-1, -1⟩ }

/-! ## Lemmas -/

/-! ### Machine arithmetic and the buffer -/

theorem store_eq_some {buf b : List stg_laser_sample_t} {i : Nat}
    {f : stg_laser_sample_t → stg_laser_sample_t} (h : store buf i f = .ok b) :
    b.length = buf.length ∧ ∃ x, buf[i]? = some x ∧
      ∀ j, b[j]? = if j = i then some (f x) else buf[j]? := by
  unfold store at h
  cases hx : buf[i]? with
  | none => simp [hx] at h
  | some x =>
    simp only [hx, Except.ok.injEq] at h
    subst h
    refine ⟨by simp, x, rfl, fun j => ?_⟩
    have hi : i < buf.length := by
      rcases List.getElem?_eq_some.1 hx with ⟨h, _⟩; exact h
    rw [List.getElem?_set]
    by_cases hji : j = i
    · subst hji; simp [hi]
    · have : ¬ i = j := fun h => hji h.symm
      simp [hji, this]

theorem store_isSome (buf : List stg_laser_sample_t) (i : Nat)
    (f : stg_laser_sample_t → stg_laser_sample_t) (h : i < buf.length) :
    ∃ b, store buf i f = .ok b := by
  unfold store
  simp [List.getElem?_eq_getElem h]

theorem store_eq_none {buf : List stg_laser_sample_t} {i : Nat}
    (f : stg_laser_sample_t → stg_laser_sample_t) (h : buf.length ≤ i) :
    store buf i f = .error .outOfBounds := by
  unfold store
  simp [List.getElem?_eq_none h]

theorem getElem?_isSome (buf : List stg_laser_sample_t) (i : Nat) (h : i < buf.length) :
    ∃ x, buf[i]? = some x :=
  ⟨buf[i], List.getElem?_eq_getElem h⟩

theorem uadd_eq {a b : Nat} (h : a + b < UINT) : uadd a b = a + b := by
  unfold uadd; exact Nat.mod_eq_of_lt h

theorem usub_eq {a b : Nat} (hb : b ≤ a) (ha : a < UINT) : usub a b = a - b := by
  unfold usub
  have : a + UINT - b = (a - b) + UINT := by omega
  rw [this, Nat.add_mod_right]
  exact Nat.mod_eq_of_lt (by omega)

theorem usub_wrap {a b : Nat} (hb : a < b) (hB : b ≤ UINT) : usub a b = a + UINT - b := by
  unfold usub
  exact Nat.mod_eq_of_lt (by omega)

theorem mul_le_lastCast {s : ModelLaser} {k : Nat} (hr : 1 ≤ s.resolution)
    (h : k * s.resolution < s.sample_count) : k * s.resolution ≤ lastCast s := by
  unfold lastCast
  have h1 : k ≤ (s.sample_count - 1) / s.resolution :=
    (Nat.le_div_iff_mul_le hr).2 (by omega)
  calc k * s.resolution = s.resolution * k := Nat.mul_comm _ _
    _ ≤ s.resolution * ((s.sample_count - 1) / s.resolution) := Nat.mul_le_mul_left _ h1

theorem lastCast_le (s : ModelLaser) : lastCast s ≤ s.sample_count - 1 := by
  unfold lastCast; exact Nat.mul_div_le _ _

theorem lastCast_lt {s : ModelLaser} (h : 1 ≤ s.sample_count) : lastCast s < s.sample_count := by
  have := lastCast_le s; omega

/-- Two multiples of `r` less than `r` apart are equal. -/
theorem dvd_window {r t i : Nat} (ht : r ∣ t) (hi : r ∣ i) (h1 : t ≤ i) (h2 : i < t + r) :
    i = t := by
  obtain ⟨a, rfl⟩ := ht
  obtain ⟨b, rfl⟩ := hi
  have hr : 0 < r := by
    rcases Nat.eq_zero_or_pos r with h | h
    · subst h; omega
    · exact h
  have hab : a ≤ b := Nat.le_of_mul_le_mul_left h1 hr
  have hba : b < a + 1 := by
    have : r * b < r * (a + 1) := by rw [Nat.mul_add, Nat.mul_one]; exact h2
    exact Nat.lt_of_mul_lt_mul_left this
  have : a = b := by omega
  rw [this]

theorem castLog_succ (s : ModelLaser) (k : Nat) :
    castLog s (k + 1) = castLog s k ++ [⟨k * s.resolution, bearingAt s k, s.range_max⟩] := by
  simp [castLog, List.range_succ]

theorem bearingAt_succ (s : ModelLaser) (k : Nat) :
    bearingAt s (k + 1) = bearingAt s k + sample_incr s := by
  simp only [bearingAt]; push_cast; ring

theorem castLoop_spec (W : World) (s : ModelLaser) (base : List stg_laser_sample_t)
    (hr : 1 ≤ s.resolution) (hnw : noWrap s) :
    ∀ fuel k sc out, (∀ j, j < k → j * s.resolution < s.sample_count) →
      CastInv W s base k sc → castLoop W s fuel (k * s.resolution) sc = .ok out →
      ∃ n, s.sample_count ≤ n * s.resolution ∧
        (∀ j, j < n → j * s.resolution < s.sample_count) ∧ CastInv W s base n out := by
  intro fuel
  induction fuel with
  | zero => intro k sc out _ _ h; simp [castLoop] at h
  | succ fuel ih =>
    intro k sc out hk hinv h
    obtain ⟨hb, hc, hlen, hbuf⟩ := hinv
    unfold castLoop at h
    by_cases ht : k * s.resolution < s.sample_count
    · simp only [ht, if_true] at h
      cases h1 : store sc.samples (k * s.resolution)
          (fun x => { x with range := (W.Raytrace sc.bearing s.range_max).range }) with
      | error e => simp [h1] at h
      | ok b1 =>
        simp only [h1] at h
        cases h2 : store b1 (k * s.resolution)
            (fun x => { x with reflectance := reflectanceOf W (W.Raytrace sc.bearing s.range_max) }) with
        | error e => simp [h2] at h
        | ok b2 =>
          simp only [h2] at h
          obtain ⟨hl1, x1, hx1, hg1⟩ := store_eq_some h1
          obtain ⟨hl2, x2, hx2, hg2⟩ := store_eq_some h2
          have hle := mul_le_lastCast hr ht
          have hnext : uadd (k * s.resolution) s.resolution = (k + 1) * s.resolution := by
            rw [uadd_eq (by unfold noWrap at hnw; omega), Nat.succ_mul]
          rw [hnext] at h
          refine ih (k + 1) _ out ?_ ?_ h
          · intro j hj
            rcases Nat.lt_succ_iff_lt_or_eq.1 hj with hj | hj
            · exact hk j hj
            · subst hj; exact ht
          · refine ⟨?_, ?_, ?_, ?_⟩
            · simp only [hb, bearingAt_succ]
            · simp only [hc, castLog_succ, hb]
            · simp only [hl2, hl1, hlen]
            · intro i hi
              rw [hg2 i]
              by_cases hik : i = k * s.resolution
              · subst hik
                have hx2' := hx2
                rw [hg1, if_pos rfl] at hx2'
                have hx2e : x2 = { x1 with range := (W.Raytrace sc.bearing s.range_max).range } :=
                  (Option.some.inj hx2').symm
                have hdiv : k * s.resolution / s.resolution = k :=
                  Nat.mul_div_cancel _ (by omega)
                have hc1 : s.resolution ∣ k * s.resolution ∧
                    k * s.resolution < (k + 1) * s.resolution :=
                  ⟨Nat.dvd_mul_left _ _, by rw [Nat.succ_mul]; omega⟩
                rw [if_pos rfl, if_pos hc1, hdiv, hx2e, hb]
                rfl
              · rw [if_neg hik, hg1 i, if_neg hik, hbuf i hi]
                have hiff : (s.resolution ∣ i ∧ i < (k + 1) * s.resolution) ↔
                    (s.resolution ∣ i ∧ i < k * s.resolution) := by
                  constructor
                  · rintro ⟨hd, hlt⟩
                    refine ⟨hd, ?_⟩
                    by_contra hcon
                    have := dvd_window (Nat.dvd_mul_left s.resolution k) hd (by omega)
                      (by rw [Nat.succ_mul] at hlt; exact hlt)
                    exact hik this
                  · rintro ⟨hd, hlt⟩
                    exact ⟨hd, by rw [Nat.succ_mul]; omega⟩
                by_cases hcnd : s.resolution ∣ i ∧ i < k * s.resolution
                · rw [if_pos hcnd, if_pos (hiff.2 hcnd)]
                · rw [if_neg hcnd, if_neg (fun h => hcnd (hiff.1 h))]
    · simp only [ht, if_false, Except.ok.injEq] at h
      subst h
      exact ⟨k, by omega, hk, hb, hc, hlen, hbuf⟩

theorem sub_div_mod {r k g : Nat} (hk : 1 ≤ k) (hg1 : 1 ≤ g) (hg : g < r) :
    (k * r - g) / r = k - 1 ∧ (k * r - g) % r = r - g ∧ ¬ r ∣ (k * r - g) := by
  obtain ⟨k', rfl⟩ : ∃ k', k = k' + 1 := ⟨k - 1, by omega⟩
  have hform : (k' + 1) * r - g = (r - g) + r * k' := by
    rw [Nat.succ_mul, Nat.mul_comm k' r]; omega
  have hlt : r - g < r := by omega
  have h1 : ((k' + 1) * r - g) / r = k' := by
    rw [hform, Nat.add_mul_div_left _ _ (by omega : 0 < r), Nat.div_eq_of_lt hlt]; simp
  have h2 : ((k' + 1) * r - g) % r = r - g := by
    rw [hform, Nat.add_mul_mod_self_left, Nat.mod_eq_of_lt hlt]
  refine ⟨by simpa using h1, h2, ?_⟩
  intro hd
  have := Nat.mod_eq_zero_of_dvd hd
  omega

theorem gapLoop_spec (c : Nat → stg_laser_sample_t) (s : ModelLaser)
    (B0 : List stg_laser_sample_t) (hwf : s.wf)
    (hB0 : ∀ j, j * s.resolution < s.sample_count → B0[j * s.resolution]? = some (c j))
    (k : Nat) (hk : 1 ≤ k) (ht : k * s.resolution < s.sample_count) :
    ∀ fuel g buf out, 1 ≤ g → g ≤ s.resolution → GapInv c s B0 k g buf →
      gapLoop s (k * s.resolution) fuel g buf = .ok out → GapInv c s B0 k s.resolution out := by
  intro fuel
  induction fuel with
  | zero => intro g buf out _ _ _ h; simp [gapLoop] at h
  | succ fuel ih =>
    intro g buf out hg1 hgr hinv h
    unfold gapLoop at h
    by_cases hg : g < s.resolution
    · obtain ⟨hlen, hbuf⟩ := hinv
      obtain ⟨hsc, hres⟩ := hwf
      have hkr : s.resolution ≤ k * s.resolution := Nat.le_mul_of_pos_left _ hk
      have hprev : k * s.resolution - s.resolution = (k - 1) * s.resolution := by
        rw [Nat.sub_mul, Nat.one_mul]
      have hprevlt : (k - 1) * s.resolution < s.sample_count := by rw [← hprev]; omega
      have hsubr : usub (k * s.resolution) s.resolution = (k - 1) * s.resolution := by
        rw [usub_eq hkr (by omega), hprev]
      have hsubg : usub (k * s.resolution) g = k * s.resolution - g :=
        usub_eq (by omega) (by omega)
      have haddg : uadd g 1 = g + 1 := uadd_eq (by omega)
      have hdt : s.resolution ∣ k * s.resolution := Nat.dvd_mul_left _ _
      have hdp : s.resolution ∣ (k - 1) * s.resolution := Nat.dvd_mul_left _ _
      obtain ⟨hdiv, hmod, hnd⟩ := sub_div_mod (r := s.resolution) hk hg1 hg
      -- the two boundary samples are the ones the casts stored
      have hbt : buf[k * s.resolution]? = some (c k) := by
        rw [hbuf _ ht, if_neg (fun h => h.1 hdt), hB0 k ht]
      have hbp : buf[(k - 1) * s.resolution]? = some (c (k - 1)) := by
        rw [hbuf _ hprevlt, if_neg (fun h => h.1 hdp), hB0 (k - 1) hprevlt]
      have hne1 : k * s.resolution ≠ k * s.resolution - g := by omega
      have hne2 : (k - 1) * s.resolution ≠ k * s.resolution - g := by rw [← hprev]; omega
      simp only [hg, if_true, ge_iff_le, Nat.not_le.2 ht, if_false, hsubr, hsubg, haddg,
        hbp] at h
      cases h1 : store buf (k * s.resolution - g) (fun _ => c (k - 1)) with
      | error e => simp [h1] at h
      | ok b1 =>
        simp only [h1] at h
        obtain ⟨hl1, x1, hx1, hg1'⟩ := store_eq_some h1
        have hb1t : b1[k * s.resolution]? = some (c k) := by
          rw [hg1', if_neg hne1, hbt]
        have hb1p : b1[(k - 1) * s.resolution]? = some (c (k - 1)) := by
          rw [hg1', if_neg hne2, hbp]
        simp only [hb1t, hb1p] at h
        cases h2 : store b1 (k * s.resolution - g) (fun x =>
            { x with range := (c k).range -
                (g : ℚ) * ((c k).range - (c (k - 1)).range) / (s.resolution : ℚ) }) with
        | error e => simp [h2] at h
        | ok b2 =>
          simp only [h2] at h
          obtain ⟨hl2, x2, hx2, hg2'⟩ := store_eq_some h2
          have hx2' : x2 = c (k - 1) := by
            rw [hg1', if_pos rfl] at hx2; exact (Option.some.inj hx2).symm
          refine ih (g + 1) b2 out (by omega) (by omega) ⟨by omega, ?_⟩ h
          intro i hi
          rw [hg2' i]
          by_cases hik : i = k * s.resolution - g
          · subst hik
            have hcond : ¬ s.resolution ∣ (k * s.resolution - g) ∧
                (k * s.resolution - g + s.resolution < k * s.resolution ∨
                  (k * s.resolution < k * s.resolution - g + (g + 1) ∧
                    k * s.resolution - g < k * s.resolution)) :=
              ⟨hnd, Or.inr ⟨by omega, by omega⟩⟩
            rw [if_pos rfl, if_pos hcond, hx2']
            have hk1 : k - 1 + 1 = k := by omega
            have hcast : ((s.resolution - (s.resolution - g) : Nat) : ℚ) = (g : ℚ) := by
              congr 1; omega
            simp only [interpSample, hdiv, hmod, hk1, hcast]
          · rw [if_neg hik, hg1' i, if_neg hik, hbuf i hi]
            have hiff : (¬ s.resolution ∣ i ∧ (i + s.resolution < k * s.resolution ∨
                  (k * s.resolution < i + (g + 1) ∧ i < k * s.resolution))) ↔
                (¬ s.resolution ∣ i ∧ (i + s.resolution < k * s.resolution ∨
                  (k * s.resolution < i + g ∧ i < k * s.resolution))) := by
              constructor
              · rintro ⟨hd, h⟩; exact ⟨hd, by omega⟩
              · rintro ⟨hd, h⟩; exact ⟨hd, by omega⟩
            by_cases hcnd : ¬ s.resolution ∣ i ∧ (i + s.resolution < k * s.resolution ∨
                  (k * s.resolution < i + g ∧ i < k * s.resolution))
            · rw [if_pos hcnd, if_pos (hiff.2 hcnd)]
            · rw [if_neg hcnd, if_neg (fun h => hcnd (hiff.1 h))]
    · simp only [hg, if_false, Except.ok.injEq] at h
      subst h
      have : g = s.resolution := by omega
      subst this
      exact hinv

theorem GapInv_next {c : Nat → stg_laser_sample_t} {s : ModelLaser}
    {B0 buf : List stg_laser_sample_t} {k : Nat} (hk : 1 ≤ k) (hr : 1 ≤ s.resolution)
    (h : GapInv c s B0 k s.resolution buf) : GapInv c s B0 (k + 1) 1 buf := by
  obtain ⟨hlen, hbuf⟩ := h
  refine ⟨hlen, fun i hi => ?_⟩
  rw [hbuf i hi]
  have hkr : s.resolution ≤ k * s.resolution := Nat.le_mul_of_pos_left _ hk
  have hiff : (¬ s.resolution ∣ i ∧ (i + s.resolution < (k + 1) * s.resolution ∨
        ((k + 1) * s.resolution < i + 1 ∧ i < (k + 1) * s.resolution))) ↔
      (¬ s.resolution ∣ i ∧ (i + s.resolution < k * s.resolution ∨
        (k * s.resolution < i + s.resolution ∧ i < k * s.resolution))) := by
    rw [Nat.succ_mul]
    constructor
    · rintro ⟨hd, h⟩
      refine ⟨hd, ?_⟩
      have hne : i + s.resolution ≠ k * s.resolution := by
        intro he
        apply hd
        have : i = k * s.resolution - s.resolution := by omega
        rw [this]
        exact Nat.dvd_sub' (Nat.dvd_mul_left _ _) (Nat.dvd_refl _)
      omega
    · rintro ⟨hd, h⟩; exact ⟨hd, by omega⟩
  by_cases hcnd : ¬ s.resolution ∣ i ∧ (i + s.resolution < k * s.resolution ∨
        (k * s.resolution < i + s.resolution ∧ i < k * s.resolution))
  · rw [if_pos hcnd, if_pos (hiff.2 hcnd)]
  · rw [if_neg hcnd, if_neg (fun h => hcnd (hiff.1 h))]

theorem interpLoop_spec (c : Nat → stg_laser_sample_t) (s : ModelLaser)
    (B0 : List stg_laser_sample_t) (hwf : s.wf) (hr : 1 ≤ s.resolution) (hnw : noWrap s)
    (hB0 : ∀ j, j * s.resolution < s.sample_count → B0[j * s.resolution]? = some (c j)) :
    ∀ fuel k buf out, 1 ≤ k → (k - 1) * s.resolution < s.sample_count →
      GapInv c s B0 k 1 buf → interpLoop s fuel (k * s.resolution) buf = .ok out →
      ∃ n, 1 ≤ n ∧ s.sample_count ≤ n * s.resolution ∧
        (n - 1) * s.resolution < s.sample_count ∧ GapInv c s B0 n 1 out := by
  intro fuel
  induction fuel with
  | zero => intro k buf out _ _ _ h; simp [interpLoop] at h
  | succ fuel ih =>
    intro k buf out hk hprev hinv h
    unfold interpLoop at h
    by_cases ht : k * s.resolution < s.sample_count
    · simp only [ht, if_true] at h
      cases h1 : gapLoop s (k * s.resolution) (s.resolution + 1) 1 buf with
      | error e => simp [h1] at h
      | ok b =>
        simp only [h1] at h
        have hgap := gapLoop_spec c s B0 hwf hB0 k hk ht _ 1 buf b (le_refl 1) hr hinv h1
        have hle := mul_le_lastCast hr ht
        have hnext : uadd (k * s.resolution) s.resolution = (k + 1) * s.resolution := by
          rw [uadd_eq (by unfold noWrap at hnw; omega), Nat.succ_mul]
        rw [hnext] at h
        exact ih (k + 1) b out (by omega) (by simpa using ht) (GapInv_next hk hr hgap) h
    · simp only [ht, if_false, Except.ok.injEq] at h
      subst h
      exact ⟨k, hk, by omega, hprev, hinv⟩

theorem g_renew_length (fresh : Nat → stg_laser_sample_t) (old : List stg_laser_sample_t)
    (n : Nat) : (g_renew fresh old n).length = n := by
  simp [g_renew]

theorem g_renew_getElem? (fresh : Nat → stg_laser_sample_t) (old : List stg_laser_sample_t)
    (n i : Nat) (h : i < n) :
    (g_renew fresh old n)[i]? = some ((old[i]?).getD (fresh i)) := by
  simp [g_renew, List.getElem?_range h]

/-- The end of the loops: the number of boundaries passed is `numCasts`. -/
theorem numCasts_unique {s : ModelLaser} {n : Nat} (hr : 1 ≤ s.resolution)
    (h1 : s.sample_count ≤ n * s.resolution)
    (h2 : ∀ j, j < n → j * s.resolution < s.sample_count) : n = numCasts s := by
  unfold numCasts
  apply Nat.le_antisymm
  · rcases Nat.eq_zero_or_pos n with h0 | h0
    · rw [h0]; exact Nat.zero_le _
    · have := h2 (n - 1) (by omega)
      apply (Nat.le_div_iff_mul_le hr).2
      have hs : (n - 1) * s.resolution + s.resolution = n * s.resolution := by
        rw [← Nat.succ_mul]; congr 1; omega
      omega
  · by_contra hlt
    have hlt' : n < (s.sample_count + s.resolution - 1) / s.resolution := by omega
    have := (Nat.le_div_iff_mul_le hr).1 hlt'
    rw [Nat.succ_mul] at this
    omega

theorem gap_filled_iff {r sc n i : Nat} (hr : 1 ≤ r) (hn1 : 1 ≤ n) (h1 : sc ≤ n * r)
    (h2 : (n - 1) * r < sc) : i + r < n * r ↔ (i / r + 1) * r < sc := by
  have hs : (n - 1) * r + r = n * r := by
    rw [← Nat.succ_mul]; congr 1; omega
  constructor
  · intro h
    have hi : i < (n - 1) * r := by omega
    have hq : i / r < n - 1 := (Nat.div_lt_iff_lt_mul hr).2 hi
    have : (i / r + 1) * r ≤ (n - 1) * r := Nat.mul_le_mul_right _ hq
    omega
  · intro h
    have hq : i / r + 1 < n := Nat.lt_of_mul_lt_mul_right (Nat.lt_of_lt_of_le h h1)
    have h3 : (i / r + 1 + 1) * r ≤ n * r := Nat.mul_le_mul_right _ hq
    have h4 : i < r * (i / r + 1) := Nat.lt_mul_div_succ i hr
    rw [Nat.succ_mul] at h3
    rw [Nat.mul_comm] at h4
    omega

theorem Update_spec (W : World) (s : ModelLaser) (hwf : s.wf) (hr : 1 ≤ s.resolution)
    (hsc : 1 ≤ s.sample_count) (hnw : noWrap s) (fuel : Nat) (u : Updated)
    (h : Update W fuel s = .ok u) :
    u.casts = castLog s (numCasts s) ∧
    u.model = { s with samples := u.model.samples, data_dirty := true } ∧
    u.model.samples.length = s.sample_count ∧
    ∀ i, i < s.sample_count → u.model.samples[i]? = scanAt W s i := by
  unfold Update at h
  simp only at h
  cases hc : castLoop W s fuel 0
      { samples := g_renew W.fresh s.samples s.sample_count, bearing := - s.fov / 2, casts := [] } with
  | error e => simp [hc] at h
  | ok sc =>
    simp only [hc] at h
    have hinit : CastInv W s (g_renew W.fresh s.samples s.sample_count) 0
        { samples := g_renew W.fresh s.samples s.sample_count, bearing := - s.fov / 2,
          casts := [] } := by
      refine ⟨by simp [bearingAt], by simp [castLog], g_renew_length _ _ _, fun i _ => ?_⟩
      simp
    have hc' := hc
    rw [show (0 : Nat) = 0 * s.resolution by simp] at hc'
    obtain ⟨n, hn1, hn2, hb, hcs, hlen, hbuf⟩ :=
      castLoop_spec W s _ hr hnw fuel 0 _ sc (by intro j hj; omega) hinit hc'
    have hn : n = numCasts s := numCasts_unique hr hn1 hn2
    have hB0 : ∀ j, j * s.resolution < s.sample_count →
        sc.samples[j * s.resolution]? = some (castSample W s j) := by
      intro j hj
      rw [hbuf _ hj, if_pos ⟨Nat.dvd_mul_left _ _, by omega⟩, Nat.mul_div_cancel _ (by omega)]
    have hcastAt : ∀ i, i < s.sample_count → s.resolution ∣ i →
        sc.samples[i]? = some (castSample W s (i / s.resolution)) := by
      intro i hi hd
      rw [hbuf i hi, if_pos ⟨hd, by omega⟩]
    have hrest : ∀ i, i < s.sample_count → ¬ s.resolution ∣ i →
        sc.samples[i]? = (g_renew W.fresh s.samples s.sample_count)[i]? := by
      intro i hi hd
      rw [hbuf i hi, if_neg (fun h => hd h.1)]
    by_cases hres : s.resolution > 1
    · simp only [hres, if_true] at h
      cases hi : interpLoop s fuel s.resolution sc.samples with
      | error e => simp [hi] at h
      | ok buf =>
        simp only [hi, Except.ok.injEq] at h
        subst h
        have hi' := hi
        rw [show interpLoop s fuel s.resolution sc.samples =
          interpLoop s fuel (1 * s.resolution) sc.samples by simp] at hi'
        have hg0 : GapInv (castSample W s) s sc.samples 1 1 sc.samples := by
          refine ⟨hlen, fun i _ => ?_⟩
          rw [if_neg]
          rintro ⟨_, h | h⟩ <;> omega
        obtain ⟨m, hm1, hm2, hm3, hlen', hfin⟩ :=
          interpLoop_spec (castSample W s) s sc.samples hwf hr hnw hB0 fuel 1 _ buf
            (le_refl 1) (by simpa using hsc) hg0 hi'
        refine ⟨by rw [hcs, hn], rfl, hlen', fun i hi => ?_⟩
        show buf[i]? = scanAt W s i
        rw [hfin i hi]
        unfold scanAt
        by_cases hd : s.resolution ∣ i
        · rw [if_neg (fun h => h.1 hd), if_pos hd, hcastAt i hi hd]
        · rw [if_neg hd]
          by_cases hf : (i / s.resolution + 1) * s.resolution < s.sample_count
          · have := (gap_filled_iff hr hm1 hm2 hm3 (i := i)).2 hf
            rw [if_pos ⟨hd, Or.inl this⟩, if_pos hf]
          · have hnf : ¬ i + s.resolution < m * s.resolution :=
              fun h => hf ((gap_filled_iff hr hm1 hm2 hm3).1 h)
            rw [if_neg (by rintro ⟨_, h | h⟩ <;> omega), if_neg hf, hrest i hi hd]
    · simp only [hres, if_false, Except.ok.injEq] at h
      subst h
      have h1 : s.resolution = 1 := by omega
      refine ⟨by rw [hcs, hn], rfl, hlen, fun i hi => ?_⟩
      show sc.samples[i]? = scanAt W s i
      have hd : s.resolution ∣ i := by rw [h1]; exact Nat.one_dvd _
      unfold scanAt
      rw [if_pos hd, hcastAt i hi hd]

/-! ### The loops keep the length of the buffer -/

theorem castLoop_length (W : World) (s : ModelLaser) :
    ∀ fuel t sc out, castLoop W s fuel t sc = .ok out →
      out.samples.length = sc.samples.length := by
  intro fuel
  induction fuel with
  | zero => intro t sc out h; simp [castLoop] at h
  | succ fuel ih =>
    intro t sc out h
    unfold castLoop at h
    by_cases ht : t < s.sample_count
    · simp only [ht, if_true] at h
      cases h1 : store sc.samples t
          (fun x => { x with range := (W.Raytrace sc.bearing s.range_max).range }) with
      | error e => simp [h1] at h
      | ok b1 =>
        simp only [h1] at h
        cases h2 : store b1 t
            (fun x => { x with reflectance := reflectanceOf W (W.Raytrace sc.bearing s.range_max) }) with
        | error e => simp [h2] at h
        | ok b2 =>
          simp only [h2] at h
          have := ih _ _ out h
          rw [this]
          show b2.length = sc.samples.length
          rw [(store_eq_some h2).1, (store_eq_some h1).1]
    · simp only [ht, if_false, Except.ok.injEq] at h
      subst h; rfl

theorem gapLoop_length (s : ModelLaser) (t : Nat) :
    ∀ fuel g buf out, gapLoop s t fuel g buf = .ok out → out.length = buf.length := by
  intro fuel
  induction fuel with
  | zero => intro g buf out h; simp [gapLoop] at h
  | succ fuel ih =>
    intro g buf out h
    unfold gapLoop at h
    by_cases hg : g < s.resolution
    · simp only [hg, if_true] at h
      by_cases ht : t ≥ s.sample_count
      · simp only [ht, if_true, Except.ok.injEq] at h
        subst h; rfl
      · simp only [ht, if_false] at h
        cases hsrc : buf[usub t s.resolution]? with
        | none => simp [hsrc] at h
        | some src =>
          simp only [hsrc] at h
          cases h1 : store buf (usub t g) (fun _ => src) with
          | error e => simp [h1] at h
          | ok b1 =>
            simp only [h1] at h
            cases hl : b1[t]? with
            | none => simp [hl] at h
            | some l =>
              cases hrr : b1[usub t s.resolution]? with
              | none => simp [hl, hrr] at h
              | some r =>
                simp only [hl, hrr] at h
                cases h2 : store b1 (usub t g) (fun x =>
                    { x with range := l.range -
                        (g : ℚ) * (l.range - r.range) / (s.resolution : ℚ) }) with
                | error e => simp [h2] at h
                | ok b2 =>
                  simp only [h2] at h
                  rw [ih _ _ out h, (store_eq_some h2).1, (store_eq_some h1).1]
    · simp only [hg, if_false, Except.ok.injEq] at h
      subst h; rfl

theorem interpLoop_length (s : ModelLaser) :
    ∀ fuel t buf out, interpLoop s fuel t buf = .ok out → out.length = buf.length := by
  intro fuel
  induction fuel with
  | zero => intro t buf out h; simp [interpLoop] at h
  | succ fuel ih =>
    intro t buf out h
    unfold interpLoop at h
    by_cases ht : t < s.sample_count
    · simp only [ht, if_true] at h
      cases h1 : gapLoop s t (s.resolution + 1) 1 buf with
      | error e => simp [h1] at h
      | ok b =>
        simp only [h1] at h
        rw [ih _ _ out h, gapLoop_length s t _ _ _ _ h1]
    · simp only [ht, if_false, Except.ok.injEq] at h
      subst h; rfl

/-! ### The loops end when the counter does not wrap -/

theorem castLoop_total (W : World) (s : ModelLaser) (hr : 1 ≤ s.resolution)
    (hnw : noWrap s) :
    ∀ fuel k sc, sc.samples.length = s.sample_count →
      s.sample_count ≤ fuel + k * s.resolution →
      ∃ out, castLoop W s (fuel + 1) (k * s.resolution) sc = .ok out := by
  intro fuel
  induction fuel with
  | zero =>
    intro k sc _ h
    unfold castLoop
    have : ¬ k * s.resolution < s.sample_count := by omega
    simp [this]
  | succ fuel ih =>
    intro k sc hlen h
    unfold castLoop
    by_cases ht : k * s.resolution < s.sample_count
    · simp only [ht, if_true]
      obtain ⟨b1, h1⟩ := store_isSome sc.samples (k * s.resolution)
        (fun x => { x with range := (W.Raytrace sc.bearing s.range_max).range })
        (by rw [hlen]; exact ht)
      have hl1 := (store_eq_some h1).1
      obtain ⟨b2, h2⟩ := store_isSome b1 (k * s.resolution)
        (fun x => { x with reflectance := reflectanceOf W (W.Raytrace sc.bearing s.range_max) })
        (by rw [hl1, hlen]; exact ht)
      have hl2 := (store_eq_some h2).1
      simp only [h1, h2]
      have hle := mul_le_lastCast hr ht
      have hnext : uadd (k * s.resolution) s.resolution = (k + 1) * s.resolution := by
        rw [uadd_eq (by unfold noWrap at hnw; omega), Nat.succ_mul]
      rw [hnext]
      exact ih (k + 1) _ (by simp only [hl2, hl1, hlen]) (by rw [Nat.succ_mul]; omega)
    · simp [ht]

theorem gapLoop_total (s : ModelLaser) (hwf : s.wf) (k : Nat) (hk : 1 ≤ k)
    (ht : k * s.resolution < s.sample_count) :
    ∀ fuel g buf, buf.length = s.sample_count → 1 ≤ g → s.resolution ≤ fuel + g →
      ∃ out, gapLoop s (k * s.resolution) (fuel + 1) g buf = .ok out := by
  obtain ⟨hsc, hres⟩ := hwf
  have hkr : s.resolution ≤ k * s.resolution := Nat.le_mul_of_pos_left _ hk
  intro fuel
  induction fuel with
  | zero =>
    intro g buf _ _ h
    unfold gapLoop
    have : ¬ g < s.resolution := by omega
    simp [this]
  | succ fuel ih =>
    intro g buf hlen hg1 h
    unfold gapLoop
    by_cases hg : g < s.resolution
    · have hsubr : usub (k * s.resolution) s.resolution = k * s.resolution - s.resolution :=
        usub_eq hkr (by omega)
      have hsubg : usub (k * s.resolution) g = k * s.resolution - g :=
        usub_eq (by omega) (by omega)
      have haddg : uadd g 1 = g + 1 := uadd_eq (by omega)
      obtain ⟨src, hsrc⟩ := getElem?_isSome buf (k * s.resolution - s.resolution) (by omega)
      obtain ⟨b1, h1⟩ := store_isSome buf (k * s.resolution - g) (fun _ => src) (by omega)
      have hl1 := (store_eq_some h1).1
      obtain ⟨l, hb1t⟩ := getElem?_isSome b1 (k * s.resolution) (by omega)
      obtain ⟨r, hb1p⟩ := getElem?_isSome b1 (k * s.resolution - s.resolution) (by omega)
      simp only [hg, if_true, ge_iff_le, Nat.not_le.2 ht, if_false, hsubr, hsubg, haddg,
        hsrc, h1, hb1t, hb1p]
      obtain ⟨b2, h2⟩ := store_isSome b1 (k * s.resolution - g)
        (fun x => { x with range := l.range -
          (g : ℚ) * (l.range - r.range) / (s.resolution : ℚ) })
        (by omega)
      have hl2 := (store_eq_some h2).1
      simp only [h2]
      exact ih (g + 1) b2 (by omega) (by omega) (by omega)
    · simp [hg]

theorem interpLoop_total (s : ModelLaser) (hwf : s.wf) (hr : 1 ≤ s.resolution)
    (hnw : noWrap s) :
    ∀ fuel k buf, 1 ≤ k → buf.length = s.sample_count →
      s.sample_count ≤ fuel + k * s.resolution →
      ∃ out, interpLoop s (fuel + 1) (k * s.resolution) buf = .ok out := by
  intro fuel
  induction fuel with
  | zero =>
    intro k buf _ _ h
    unfold interpLoop
    have : ¬ k * s.resolution < s.sample_count := by omega
    simp [this]
  | succ fuel ih =>
    intro k buf hk hlen h
    unfold interpLoop
    by_cases ht : k * s.resolution < s.sample_count
    · simp only [ht, if_true]
      obtain ⟨b, hb⟩ := gapLoop_total s hwf k hk ht s.resolution 1 buf hlen (le_refl 1)
        (by omega)
      have hlb := gapLoop_length s _ _ _ _ _ hb
      simp only [hb]
      have hle := mul_le_lastCast hr ht
      have hnext : uadd (k * s.resolution) s.resolution = (k + 1) * s.resolution := by
        rw [uadd_eq (by unfold noWrap at hnw; omega), Nat.succ_mul]
      rw [hnext]
      exact ih (k + 1) b (by omega) (by omega) (by rw [Nat.succ_mul]; omega)
    · simp [ht]

theorem Update_total (W : World) (s : ModelLaser) (hwf : s.wf) (hr : 1 ≤ s.resolution)
    (hnw : noWrap s) : ∃ u, Update W (s.sample_count + 1) s = .ok u := by
  unfold Update
  simp only
  obtain ⟨sc, hc⟩ := castLoop_total W s hr hnw s.sample_count 0
    { samples := g_renew W.fresh s.samples s.sample_count, bearing := - s.fov / 2, casts := [] }
    (g_renew_length _ _ _) (by omega)
  rw [Nat.zero_mul] at hc
  have hlen : sc.samples.length = s.sample_count := by
    rw [castLoop_length W s _ _ _ _ hc]; exact g_renew_length _ _ _
  simp only [hc]
  by_cases hres : s.resolution > 1
  · obtain ⟨buf, hb⟩ := interpLoop_total s hwf hr hnw s.sample_count 1 sc.samples (le_refl 1)
      hlen (by omega)
    rw [Nat.one_mul] at hb
    simp [hres, hb]
  · simp [hres]

/-! ### When the counter wraps, the interpolation pass leaves the buffer -/

/-- At a wrapped boundary `t` (below `resolution - 1`) the inner loop reaches
`g = t + 1`, where `t - g` is `2^32 - 1`: outside every buffer. -/
theorem gapLoop_wrapped (s : ModelLaser) (hwf : s.wf) (t : Nat)
    (ht2 : t + 2 ≤ s.resolution) (hts : t < s.sample_count) :
    ∀ fuel g buf, buf.length = s.sample_count → 1 ≤ g → g ≤ t + 1 →
      ∃ e, gapLoop s t fuel g buf = .error e := by
  obtain ⟨hsc, hres⟩ := hwf
  intro fuel
  induction fuel with
  | zero => intro g buf _ _ _; exact ⟨_, rfl⟩
  | succ fuel ih =>
    intro g buf hlen hg1 hgt
    unfold gapLoop
    have hg : g < s.resolution := by omega
    simp only [hg, if_true, ge_iff_le, Nat.not_le.2 hts, if_false]
    cases hsrc : buf[usub t s.resolution]? with
    | none => exact ⟨_, rfl⟩
    | some src =>
      simp only []
      by_cases hlast : g = t + 1
      · have hidx : usub t g = UINT - 1 := by
          rw [usub_wrap (by omega) (by omega), hlast]; omega
        rw [hidx, store_eq_none _ (by rw [hlen]; omega)]
        exact ⟨_, rfl⟩
      · have hsubg : usub t g = t - g := usub_eq (by omega) (by omega)
        have haddg : uadd g 1 = g + 1 := uadd_eq (by omega)
        rw [hsubg, haddg]
        cases h1 : store buf (t - g) (fun _ => src) with
        | error e => exact ⟨_, rfl⟩
        | ok b1 =>
          simp only []
          cases hl : b1[t]? with
          | none => exact ⟨_, rfl⟩
          | some l =>
            cases hrr : b1[usub t s.resolution]? with
            | none => exact ⟨_, rfl⟩
            | some r =>
              simp only []
              cases h2 : store b1 (t - g) (fun x =>
                  { x with range := l.range -
                      (g : ℚ) * (l.range - r.range) / (s.resolution : ℚ) }) with
              | error e => exact ⟨_, rfl⟩
              | ok b2 =>
                simp only []
                exact ih (g + 1) b2
                  (by rw [(store_eq_some h2).1, (store_eq_some h1).1, hlen]) (by omega)
                  (by omega)

theorem lastCast_succ_le {s : ModelLaser} {k : Nat}
    (h : k * s.resolution < lastCast s) : (k + 1) * s.resolution ≤ lastCast s := by
  unfold lastCast at *
  rw [Nat.mul_comm k] at h
  have hk : k < (s.sample_count - 1) / s.resolution := Nat.lt_of_mul_lt_mul_left h
  rw [Nat.mul_comm]
  exact Nat.mul_le_mul_left _ hk

theorem interpLoop_wrapped (s : ModelLaser) (hwf : s.wf) (hw : ¬ noWrap s) :
    ∀ fuel k buf, 1 ≤ k → k * s.resolution ≤ lastCast s → buf.length = s.sample_count →
      ∃ e, interpLoop s fuel (k * s.resolution) buf = .error e := by
  have hsc := hwf.1
  have hres := hwf.2
  have hL := lastCast_le s
  unfold noWrap at hw
  have hsc1 : 1 ≤ s.sample_count := by
    by_contra h0
    have h00 : s.sample_count = 0 := by omega
    have : lastCast s = 0 := by unfold lastCast; simp [h00]
    omega
  intro fuel
  induction fuel with
  | zero => intro k buf _ _ _; exact ⟨_, rfl⟩
  | succ fuel ih =>
    intro k buf hk hkL hlen
    unfold interpLoop
    have ht : k * s.resolution < s.sample_count := by omega
    simp only [ht, if_true]
    cases h1 : gapLoop s (k * s.resolution) (s.resolution + 1) 1 buf with
    | error e => exact ⟨_, rfl⟩
    | ok b =>
      simp only []
      have hlb : b.length = s.sample_count := by
        rw [gapLoop_length s _ _ _ _ _ h1, hlen]
      by_cases hlt : k * s.resolution < lastCast s
      · have hle := lastCast_succ_le hlt
        have hle' := hle
        rw [Nat.succ_mul] at hle'
        have hnext : uadd (k * s.resolution) s.resolution = (k + 1) * s.resolution := by
          rw [uadd_eq (by omega), Nat.succ_mul]
        rw [hnext]
        exact ih (k + 1) b (by omega) hle hlb
      · have heq : k * s.resolution = lastCast s := by omega
        have hkr : s.resolution ≤ k * s.resolution := Nat.le_mul_of_pos_left _ hk
        have hnext : uadd (k * s.resolution) s.resolution =
            k * s.resolution + s.resolution - UINT := by
          unfold uadd
          rw [Nat.mod_eq_sub_mod (by omega)]
          exact Nat.mod_eq_of_lt (by omega)
        rw [hnext]
        cases fuel with
        | zero => exact ⟨_, rfl⟩
        | succ fuel =>
          unfold interpLoop
          have ht' : k * s.resolution + s.resolution - UINT < s.sample_count := by omega
          simp only [ht', if_true]
          obtain ⟨e, he⟩ :=
            gapLoop_wrapped s hwf _ (by omega) ht' (s.resolution + 1) 1 b hlb (le_refl 1)
              (by omega)
          rw [he]
          exact ⟨_, rfl⟩

theorem Update_wrapped (W : World) (s : ModelLaser) (hwf : s.wf) (hr : 1 ≤ s.resolution)
    (hw : ¬ noWrap s) (fuel : Nat) : ∃ e, Update W fuel s = .error e := by
  unfold Update
  simp only
  cases hc : castLoop W s fuel 0
      { samples := g_renew W.fresh s.samples s.sample_count, bearing := - s.fov / 2, casts := [] } with
  | error e => exact ⟨_, rfl⟩
  | ok sc =>
    simp only []
    have hlen : sc.samples.length = s.sample_count := by
      rw [castLoop_length W s _ _ _ _ hc]; exact g_renew_length _ _ _
    have hsc := hwf.1
    have hres := hwf.2
    have hw' := hw
    unfold noWrap at hw'
    have hL := lastCast_le s
    have hLpos : 0 < lastCast s := by omega
    have hrL : 1 * s.resolution ≤ lastCast s := by
      unfold lastCast at hLpos ⊢
      rw [Nat.one_mul]
      have hq : 0 < (s.sample_count - 1) / s.resolution := by
        rcases Nat.eq_zero_or_pos ((s.sample_count - 1) / s.resolution) with h | h
        · rw [h] at hLpos; simp at hLpos
        · exact h
      exact Nat.le_mul_of_pos_right _ hq
    have hres1 : s.resolution > 1 := by
      by_contra h1
      have h1' : s.resolution = 1 := by omega
      unfold lastCast at hL hw'
      rw [h1'] at hw' hL
      simp at hw' hL
      omega
    obtain ⟨e, he⟩ := interpLoop_wrapped s hwf hw fuel 1 sc.samples (le_refl 1) hrL hlen
    rw [Nat.one_mul] at he
    simp only [hres1, if_true, he]
    exact ⟨_, rfl⟩

/-- Every completed `Update` is described by `scanAt`; it completes exactly
when the loop counter does not wrap. -/
theorem Update_post (W : World) (s : ModelLaser) (hwf : s.wf) (hr : 1 ≤ s.resolution)
    (hsc : 1 ≤ s.sample_count) (fuel : Nat) (u : Updated) (h : Update W fuel s = .ok u) :
    u.casts = castLog s (numCasts s) ∧
    u.model = { s with samples := u.model.samples, data_dirty := true } ∧
    u.model.samples.length = s.sample_count ∧
    ∀ i, i < s.sample_count → u.model.samples[i]? = scanAt W s i := by
  by_cases hnw : noWrap s
  · exact Update_spec W s hwf hr hsc hnw fuel u h
  · obtain ⟨e, he⟩ := Update_wrapped W s hwf hr hnw fuel
    rw [he] at h
    exact absurd h (by simp)

/-! ### Example scans, evaluated -/

theorem Update_ex5by2 : Update exWorld 6 ex5by2 = .ok ex5by2_scan := by
  simp [Update, castLoop, interpLoop, gapLoop, store, g_renew, exWorld, ex5by2, ex5by2_scan,
    ModelLaser.new, uadd, usub, UINT, sample_incr, sample_incr_den, reflectanceOf,
    DEFAULT_SAMPLES, DEFAULT_MAXRANGE, DEFAULT_RESOLUTION, List.range, List.range.loop]
  norm_num

theorem Update_ex4by3 : Update exWorld 5 ex4by3 = .ok ex4by3_scan := by
  simp [Update, castLoop, interpLoop, gapLoop, store, g_renew, exWorld, ex4by3, ex4by3_scan,
    ModelLaser.new, uadd, usub, UINT, sample_incr, sample_incr_den, reflectanceOf,
    DEFAULT_SAMPLES, DEFAULT_MAXRANGE, DEFAULT_RESOLUTION, List.range, List.range.loop]
  norm_num

theorem Update_ex4by2_nine :
    Update exWorld 5 (ex4by2 ⟨9, 0⟩) = .ok (ex4by2_scan ⟨9, 0⟩) := by
  simp [Update, castLoop, interpLoop, gapLoop, store, g_renew, exWorld, ex4by2, ex4by2_scan,
    ModelLaser.new, uadd, usub, UINT, sample_incr, sample_incr_den, reflectanceOf,
    DEFAULT_SAMPLES, DEFAULT_MAXRANGE, DEFAULT_RESOLUTION, List.range, List.range.loop]
  norm_num

theorem Update_ex4by2_five :
    Update exWorld 5 (ex4by2 ⟨5, 1⟩) = .ok (ex4by2_scan ⟨5, 1⟩) := by
  simp [Update, castLoop, interpLoop, gapLoop, store, g_renew, exWorld, ex4by2, ex4by2_scan,
    ModelLaser.new, uadd, usub, UINT, sample_incr, sample_incr_den, reflectanceOf,
    DEFAULT_SAMPLES, DEFAULT_MAXRANGE, DEFAULT_RESOLUTION, List.range, List.range.loop]
  norm_num

theorem Load_exOneSample :
    Load exOneSample ModelLaser.new =
      { ModelLaser.new with sample_count := 1, fov := 4 } := by
  simp [Load, exOneSample, ModelLaser.new, ReadInt, ReadLength, ReadAngle, toUInt, toInt, UINT,
    DEFAULT_RESOLUTION]

theorem Update_exOneSample :
    Update exWorld 2 { ModelLaser.new with sample_count := 1, fov := 4 } =
      Except.ok
        { model := { ModelLaser.new with
            sample_count := 1, fov := 4, samples := [⟨6, 1⟩], data_dirty := true }
          casts := [⟨0, -2, 8⟩] } := by
  simp [Update, castLoop, interpLoop, gapLoop, store, g_renew, exWorld,
    ModelLaser.new, uadd, usub, UINT, sample_incr, sample_incr_den, reflectanceOf,
    DEFAULT_SAMPLES, DEFAULT_MAXRANGE, DEFAULT_RESOLUTION, List.range, List.range.loop]
  norm_num

theorem SetSamples_exTwo_one :
    SetSamples exWorld exInjected 1 exTwo =
      Except.ok { exTwo with samples := [⟨3, 0⟩, ⟨4, 1⟩], sample_count := 1, data_dirty := true } := by
  simp [SetSamples, exTwo, exInjected, g_renew, ModelLaser.new, List.range, List.range.loop]

/-! ### Reading a completed scan -/

theorem add_div_mod {r k g : Nat} (hg : g < r) :
    (k * r + g) / r = k ∧ (k * r + g) % r = g ∧ (0 < g → ¬ r ∣ (k * r + g)) := by
  have h1 : (k * r + g) / r = k := by
    rw [Nat.add_comm, Nat.mul_comm, Nat.add_mul_div_left _ _ (by omega : 0 < r),
      Nat.div_eq_of_lt hg]; simp
  have h2 : (k * r + g) % r = g := by
    rw [Nat.add_comm, Nat.mul_comm, Nat.add_mul_mod_self_left, Nat.mod_eq_of_lt hg]
  refine ⟨h1, h2, fun h0 hd => ?_⟩
  have := Nat.mod_eq_zero_of_dvd hd
  omega

theorem scanAt_boundary (W : World) (s : ModelLaser) (k : Nat) (hr : 1 ≤ s.resolution) :
    scanAt W s (k * s.resolution) = some (castSample W s k) := by
  unfold scanAt
  rw [if_pos (Nat.dvd_mul_left _ _), Nat.mul_div_cancel _ (by omega)]

theorem scanAt_gap (W : World) (s : ModelLaser) (k g : Nat) (hg0 : 0 < g)
    (hg : g < s.resolution) (hin : (k + 1) * s.resolution < s.sample_count) :
    scanAt W s (k * s.resolution + g) = some
      { range := (castSample W s (k + 1)).range -
          ((s.resolution - g : Nat) : ℚ) *
            ((castSample W s (k + 1)).range - (castSample W s k).range) / (s.resolution : ℚ)
        reflectance := (castSample W s k).reflectance } := by
  obtain ⟨hdiv, hmod, hnd⟩ := add_div_mod (r := s.resolution) (k := k) hg
  unfold scanAt
  rw [if_neg (hnd hg0), hdiv, if_pos hin]
  simp only [interpSample, hdiv, hmod]

theorem mem_castLog {s : ModelLaser} {n : Nat} {c : Cast} :
    c ∈ castLog s n ↔ ∃ k, k < n ∧ c = ⟨k * s.resolution, bearingAt s k, s.range_max⟩ := by
  unfold castLog
  simp only [List.mem_map, List.mem_range]
  constructor
  · rintro ⟨k, hk, rfl⟩; exact ⟨k, hk, rfl⟩
  · rintro ⟨k, hk, rfl⟩; exact ⟨k, hk, rfl⟩

theorem lt_numCasts_iff {s : ModelLaser} (hr : 1 ≤ s.resolution) (k : Nat) :
    k < numCasts s ↔ k * s.resolution < s.sample_count := by
  unfold numCasts
  rw [Nat.lt_iff_add_one_le, Nat.le_div_iff_mul_le hr, Nat.succ_mul]
  omega

theorem castLog_index (s : ModelLaser) (n : Nat) :
    (castLog s n).map Cast.index = (List.range n).map (fun k => k * s.resolution) := by
  simp [castLog, Function.comp_def]

theorem interpLoop_frame (s : ModelLaser) (hwf : s.wf) (hr : 1 ≤ s.resolution)
    (fuel : Nat) (buf out : List stg_laser_sample_t) (hlen : buf.length = s.sample_count)
    (h : interpLoop s fuel s.resolution buf = .ok out) (t : Nat) (hd : s.resolution ∣ t) :
    out[t]? = buf[t]? := by
  have hlo : out.length = s.sample_count := by rw [interpLoop_length s _ _ _ _ h, hlen]
  by_cases hts : t < s.sample_count
  · have hsc : 1 ≤ s.sample_count := by omega
    rw [← Nat.one_mul s.resolution] at h
    by_cases hnw : noWrap s
    · have hB0 : ∀ j, j * s.resolution < s.sample_count →
          buf[j * s.resolution]? = some ((buf[j * s.resolution]?).getD ⟨0, 0⟩) := by
        intro j hj
        obtain ⟨x, hx⟩ := getElem?_isSome buf (j * s.resolution) (by omega)
        rw [hx]; rfl
      have hg0 : GapInv (fun j => (buf[j * s.resolution]?).getD ⟨0, 0⟩) s buf 1 1 buf := by
        refine ⟨hlen, fun i _ => ?_⟩
        rw [if_neg]
        rintro ⟨_, h | h⟩ <;> omega
      obtain ⟨m, _, _, _, _, hfin⟩ :=
        interpLoop_spec _ s buf hwf hr hnw hB0 fuel 1 buf out (le_refl 1) (by simpa using hsc)
          hg0 h
      rw [hfin t hts, if_neg (fun h => h.1 hd)]
    · have hsc' := hwf.1
      have hw := hnw
      unfold noWrap at hw
      have hL := lastCast_le s
      have hLpos : 0 < lastCast s := by have := hwf.2; omega
      have hrL : 1 * s.resolution ≤ lastCast s := by
        unfold lastCast at hLpos ⊢
        rw [Nat.one_mul]
        have hq : 0 < (s.sample_count - 1) / s.resolution := by
          rcases Nat.eq_zero_or_pos ((s.sample_count - 1) / s.resolution) with h | h
          · rw [h] at hLpos; simp at hLpos
          · exact h
        exact Nat.le_mul_of_pos_right _ hq
      obtain ⟨e, he⟩ := interpLoop_wrapped s hwf hnw fuel 1 buf (le_refl 1) hrL hlen
      rw [he] at h
      exact absurd h (by simp)
  · rw [List.getElem?_eq_none (by omega), List.getElem?_eq_none (by omega)]

theorem castLog_index_count (s : ModelLaser) (hr : 1 ≤ s.resolution) (t : Nat) :
    ((castLog s (numCasts s)).map Cast.index).count t =
      if t < s.sample_count ∧ s.resolution ∣ t then 1 else 0 := by
  rw [castLog_index]
  have hinj : Function.Injective (fun k : Nat => k * s.resolution) := by
    intro a b hab
    exact Nat.eq_of_mul_eq_mul_right (by omega : 0 < s.resolution) hab
  have hnd : ((List.range (numCasts s)).map (fun k => k * s.resolution)).Nodup :=
    List.Nodup.map hinj (List.nodup_range _)
  have hmem : t ∈ (List.range (numCasts s)).map (fun k => k * s.resolution) ↔
      (t < s.sample_count ∧ s.resolution ∣ t) := by
    simp only [List.mem_map, List.mem_range]
    constructor
    · rintro ⟨k, hk, rfl⟩
      exact ⟨(lt_numCasts_iff hr k).1 hk, Nat.dvd_mul_left _ _⟩
    · rintro ⟨ht, k, rfl⟩
      rw [Nat.mul_comm] at ht
      exact ⟨k, (lt_numCasts_iff hr k).2 ht, Nat.mul_comm _ _⟩
  by_cases h : t < s.sample_count ∧ s.resolution ∣ t
  · rw [if_pos h]; exact List.count_eq_one_of_mem hnd (hmem.2 h)
  · rw [if_neg h]; exact List.count_eq_zero_of_not_mem (fun hm => h (hmem.1 hm))

theorem singleton_of_getElem? {l : List stg_laser_sample_t} {x : stg_laser_sample_t}
    (hl : l.length = 1) (h0 : l[0]? = some x) : l = [x] := by
  match l, hl, h0 with
  | [y], _, h0 =>
    simp at h0
    rw [h0]

theorem toUInt_toInt {n : Nat} (h : n < UINT) : toUInt (toInt n) = n := by
  unfold toUInt toInt UINT at *
  split <;> omega

theorem Load_resolution_pos (f : Worldfile) (s : ModelLaser) : 1 ≤ (Load f s).resolution := by
  simp only [Load]
  split <;> omega

/-! ### The boundaries of a completed scan -/

/-- Cast samples of a completed scan.  For every configuration with
`sample_count ≥ 2` and `resolution ≥ 1` and every ray caster, a completed
`Update` holds at every index `t` below `sample_count` that is a multiple of
`resolution` the result of the cast made for `t`: that cast is in the record, the stored range is the range it
returned, unclamped, the stored reflectance is 1 when it hit a model with
`laser_return ≥ LaserBright` and 0 otherwise, and the interpolation pass
leaves every such index as it finds it.  `Update` completes whenever the
loop counter does not wrap. -/
theorem Update_cast_samples_kept (W : World) (s : ModelLaser) (hwf : s.wf)
    (hsc : 2 ≤ s.sample_count) (hr : 1 ≤ s.resolution) :
    (noWrap s → ∃ u, Update W (s.sample_count + 1) s = .ok u) ∧
    (∀ fuel u, Update W fuel s = .ok u →
      ∀ t, t < s.sample_count → s.resolution ∣ t →
        (⟨t, bearingAt s (t / s.resolution), s.range_max⟩ : Cast) ∈ u.casts ∧
        u.model.samples[t]? = some
          { range := (W.Raytrace (bearingAt s (t / s.resolution)) s.range_max).range
            reflectance :=
              match (W.Raytrace (bearingAt s (t / s.resolution)) s.range_max).mod with
              | some m => if m.laser_return ≥ W.LaserBright then 1 else 0
              | none => 0 }) ∧
    (∀ fuel buf out, buf.length = s.sample_count →
      interpLoop s fuel s.resolution buf = .ok out →
      ∀ t, s.resolution ∣ t → out[t]? = buf[t]?) := by
  refine ⟨Update_total W s hwf hr, ?_, ?_⟩
  · intro fuel u h t ht hd
    obtain ⟨hcasts, _, _, hbuf⟩ := Update_post W s hwf hr (by omega) fuel u h
    obtain ⟨k, rfl⟩ := hd
    rw [Nat.mul_comm] at ht ⊢
    have hdiv : k * s.resolution / s.resolution = k := Nat.mul_div_cancel _ (by omega)
    refine ⟨?_, ?_⟩
    · rw [hcasts, hdiv]
      exact mem_castLog.2 ⟨k, (lt_numCasts_iff hr k).2 ht, rfl⟩
    · rw [hbuf _ ht, scanAt_boundary W s k hr, hdiv]
      rfl
  · intro fuel buf out hlen h t hd
    exact interpLoop_frame s hwf hr fuel buf out hlen h t hd

/-- Example: the scan of five samples at resolution two. -/
theorem cast_samples_kept_ex5by2 :
    ex5by2.wf ∧ 2 ≤ ex5by2.sample_count ∧ 1 ≤ ex5by2.resolution ∧ noWrap ex5by2 ∧
    (∃ u, Update exWorld (ex5by2.sample_count + 1) ex5by2 = .ok u) ∧
    (⟨2, bearingAt ex5by2 (2 / ex5by2.resolution), ex5by2.range_max⟩ : Cast) ∈
      ex5by2_scan.casts ∧
    ex5by2_scan.model.samples[2]? = some
      { range := (exWorld.Raytrace (bearingAt ex5by2 (2 / ex5by2.resolution))
          ex5by2.range_max).range
        reflectance :=
          match (exWorld.Raytrace (bearingAt ex5by2 (2 / ex5by2.resolution))
            ex5by2.range_max).mod with
          | some m => if m.laser_return ≥ exWorld.LaserBright then 1 else 0
          | none => 0 } :=
  ⟨by decide, by decide, by decide, by decide,
    (Update_cast_samples_kept exWorld ex5by2 (by decide) (by decide) (by decide)).1 (by decide),
    (Update_cast_samples_kept exWorld ex5by2 (by decide) (by decide) (by decide)).2.1 6
      ex5by2_scan Update_ex5by2 2 (by decide) (by decide)⟩

/-- The casts of a completed scan.  For every configuration with
`sample_count ≥ 2` and `resolution ≥ 1`, the record of a completed `Update`
holds `ceil(sample_count / resolution)` casts, exactly one for each index below `sample_count` that is a multiple of
`resolution` and none for any other index, each of length `range_max`; with
`resolution = 1` every index holds the result of its own cast and `Update` is
the cast loop alone, the interpolation pass not being entered.  `Update`
completes whenever the loop counter does not wrap. -/
theorem Update_one_cast_per_boundary (W : World) (s : ModelLaser) (hwf : s.wf)
    (hsc : 2 ≤ s.sample_count) (hr : 1 ≤ s.resolution) :
    (noWrap s → ∃ u, Update W (s.sample_count + 1) s = .ok u) ∧
    (∀ fuel u, Update W fuel s = .ok u →
      u.casts.length = (s.sample_count + s.resolution - 1) / s.resolution ∧
      (∀ t, (u.casts.map Cast.index).count t =
        if t < s.sample_count ∧ s.resolution ∣ t then 1 else 0) ∧
      (∀ c, c ∈ u.casts → c.length = s.range_max) ∧
      (s.resolution = 1 → ∀ i, i < s.sample_count →
        ∃ c, c ∈ u.casts ∧ c.index = i ∧
          u.model.samples[i]? = some
            { range := (W.Raytrace c.bearing c.length).range
              reflectance := reflectanceOf W (W.Raytrace c.bearing c.length) })) ∧
    (s.resolution = 1 → ∀ fuel, Update W fuel s =
      (castLoop W s fuel 0
        { samples := g_renew W.fresh s.samples s.sample_count
          bearing := - s.fov / 2
          casts := [] }).map
        fun sc => { model := { s with samples := sc.samples, data_dirty := true }
                    casts := sc.casts }) := by
  refine ⟨Update_total W s hwf hr, ?_, ?_⟩
  · intro fuel u h
    obtain ⟨hcasts, _, _, hbuf⟩ := Update_post W s hwf hr (by omega) fuel u h
    refine ⟨?_, ?_, ?_, ?_⟩
    · rw [hcasts]; simp [castLog, numCasts]
    · intro t; rw [hcasts]; exact castLog_index_count s hr t
    · intro c hc
      rw [hcasts] at hc
      obtain ⟨k, _, rfl⟩ := mem_castLog.1 hc
      rfl
    · intro h1 i hi
      refine ⟨⟨i * s.resolution, bearingAt s i, s.range_max⟩, ?_, ?_, ?_⟩
      · rw [hcasts]
        exact mem_castLog.2 ⟨i, (lt_numCasts_iff hr i).2 (by rw [h1]; omega), rfl⟩
      · show i * s.resolution = i
        rw [h1, Nat.mul_one]
      · have := scanAt_boundary W s i hr
        rw [h1, Nat.mul_one] at this
        rw [hbuf i hi, this]
        rfl
  · intro h1 fuel
    unfold Update
    simp only
    cases castLoop W s fuel 0
        { samples := g_renew W.fresh s.samples s.sample_count, bearing := - s.fov / 2,
          casts := [] } with
    | error e => rfl
    | ok sc =>
      have : ¬ s.resolution > 1 := by omega
      simp [this, Except.map]

/-- Example: the scan of five samples at resolution two makes three
casts, one of them for index 2 and none for index 3. -/
theorem one_cast_per_boundary_ex5by2 :
    ex5by2.wf ∧ 2 ≤ ex5by2.sample_count ∧ 1 ≤ ex5by2.resolution ∧ noWrap ex5by2 ∧
    (∃ u, Update exWorld (ex5by2.sample_count + 1) ex5by2 = .ok u) ∧
    ex5by2_scan.casts.length = (ex5by2.sample_count + ex5by2.resolution - 1) / ex5by2.resolution ∧
    (ex5by2_scan.casts.map Cast.index).count 2 = 1 ∧
    (ex5by2_scan.casts.map Cast.index).count 3 = 0 :=
  have h := (Update_one_cast_per_boundary exWorld ex5by2 (by decide) (by decide) (by decide)).2.1 6
    ex5by2_scan Update_ex5by2
  ⟨by decide, by decide, by decide, by decide,
    (Update_one_cast_per_boundary exWorld ex5by2 (by decide) (by decide) (by decide)).1 (by decide),
    h.1, h.2.1 2, h.2.1 3⟩

/-! ## The claims -/

/-- C2 (code bug): the heading of a ray advances by one bearing step per
cast, not per sample index.  With five samples over a field of view of 4 and
resolution 2 the casts stored at indices 0, 2 and 4 head at -2, -1 and 0,
while the bearings of those samples, the angles at which `DataVisualize`
plots them, are -2, 0 and 2: the last sample is not cast at `+fov/2`. -/
theorem C2_bearing_advances_per_cast :
    Update exWorld 6 ex5by2 = .ok ex5by2_scan ∧
    ex5by2_scan.casts = [⟨0, -2, 8⟩, ⟨2, -1, 8⟩, ⟨4, 0, 8⟩] ∧
    ray_angle ex5by2 0 = -2 ∧ ray_angle ex5by2 2 = 0 ∧ ray_angle ex5by2 4 = 2 ∧
    ex5by2.fov / 2 = 2 := by
  refine ⟨Update_ex5by2, rfl, ?_, ?_, ?_, ?_⟩ <;>
    norm_num [ray_angle, ex5by2, usub, UINT, ModelLaser.new]

/-- C3, refuted as stated: with four samples at resolution three the
boundaries 0 and 3 hold the ranges 5 and 7, and the sample at index
`0 + 1` holds 17/3, not `7 - 1 * (7 - 5) / 3 = 19/3`. -/
theorem C3_counterexample :
    ∃ u a b x, Update exWorld 5 ex4by3 = .ok u ∧
      u.model.samples[0]? = some a ∧ u.model.samples[0 + 3]? = some b ∧
      u.model.samples[0 + 1]? = some x ∧
      x.range ≠ b.range - (1 : ℚ) * (b.range - a.range) / (3 : ℚ) := by
  refine ⟨ex4by3_scan, ⟨5, 1⟩, ⟨7, 0⟩, ⟨17 / 3, 1⟩, Update_ex4by3, rfl, rfl, rfl, ?_⟩
  norm_num

/-- C3, amended: for `resolution > 1`, boundaries `left` and
`left + resolution` (both inside the scan) with ranges `R_left` and `R_right`
and `0 < g < resolution`, a completed `Update` holds at index `left + g` the
range `R_right - (resolution - g) * (R_right - R_left) / resolution`, which is
`R_left + g * (R_right - R_left) / resolution`. -/
theorem C3_interpolation_from_left (W : World) (s : ModelLaser) (hwf : s.wf)
    (hres : 1 < s.resolution) :
    (noWrap s → ∃ u, Update W (s.sample_count + 1) s = .ok u) ∧
    ∀ fuel u, Update W fuel s = .ok u →
      ∀ left g, s.resolution ∣ left → left + s.resolution < s.sample_count →
        0 < g → g < s.resolution →
        ∃ a b x, u.model.samples[left]? = some a ∧
          u.model.samples[left + s.resolution]? = some b ∧
          u.model.samples[left + g]? = some x ∧
          x.range = b.range -
            ((s.resolution - g : Nat) : ℚ) * (b.range - a.range) / (s.resolution : ℚ) ∧
          x.range = a.range + (g : ℚ) * (b.range - a.range) / (s.resolution : ℚ) := by
  have hr : 1 ≤ s.resolution := by omega
  refine ⟨Update_total W s hwf hr, ?_⟩
  intro fuel u h left g hd hin hg0 hg
  obtain ⟨_, _, _, hbuf⟩ := Update_post W s hwf hr (by omega) fuel u h
  obtain ⟨k, rfl⟩ := hd
  rw [Nat.mul_comm] at hin ⊢
  have hin' : (k + 1) * s.resolution < s.sample_count := by rw [Nat.succ_mul]; exact hin
  refine ⟨castSample W s k, castSample W s (k + 1),
    { range := (castSample W s (k + 1)).range -
        ((s.resolution - g : Nat) : ℚ) *
          ((castSample W s (k + 1)).range - (castSample W s k).range) / (s.resolution : ℚ)
      reflectance := (castSample W s k).reflectance }, ?_, ?_, ?_, rfl, ?_⟩
  · rw [hbuf _ (by omega), scanAt_boundary W s k hr]
  · rw [hbuf _ hin, ← Nat.succ_mul, scanAt_boundary W s (k + 1) hr]
  · rw [hbuf _ (by omega), scanAt_gap W s k g hg0 hg hin']
  · have hrq : (s.resolution : ℚ) ≠ 0 := by
      have : (0 : ℚ) < (s.resolution : ℚ) := by exact_mod_cast hr
      exact ne_of_gt this
    have hcast : ((s.resolution - g : Nat) : ℚ) = (s.resolution : ℚ) - (g : ℚ) := by
      rw [Nat.cast_sub (by omega)]
    simp only [hcast]
    field_simp
    ring

/-- Witness of C3 (amended): index 1 of the scan of four samples at
resolution three holds `7 - 2 * (7 - 5) / 3`. -/
theorem C3_witness :
    ex4by3.wf ∧ 1 < ex4by3.resolution ∧ noWrap ex4by3 ∧
    (∃ u, Update exWorld (ex4by3.sample_count + 1) ex4by3 = .ok u) ∧
    ∃ a b x, ex4by3_scan.model.samples[0]? = some a ∧
      ex4by3_scan.model.samples[0 + ex4by3.resolution]? = some b ∧
      ex4by3_scan.model.samples[0 + 1]? = some x ∧
      x.range = b.range -
        ((ex4by3.resolution - 1 : Nat) : ℚ) * (b.range - a.range) / (ex4by3.resolution : ℚ) ∧
      x.range = a.range + ((1 : Nat) : ℚ) * (b.range - a.range) / (ex4by3.resolution : ℚ) :=
  ⟨by decide, by decide, by decide,
    (C3_interpolation_from_left exWorld ex4by3 (by decide) (by decide)).1 (by decide),
    (C3_interpolation_from_left exWorld ex4by3 (by decide) (by decide)).2 5 ex4by3_scan
      Update_ex4by3 0 1 (by decide) (by decide) (by decide) (by decide)⟩

/-- C4: for `resolution > 1`, every boundary `t` that is a positive multiple
of `resolution` below `sample_count` and every `g` in `[1, resolution - 1]`,
a completed `Update` holds at index `t - g` the range
`range(t) - g * (range(t) - range(t - resolution)) / resolution`, where
`range(t)` and `range(t - resolution)` are the ranges returned by the casts
made for those two indices, which the buffer holds there.  `Update` completes
whenever the loop counter does not wrap. -/
theorem C4_gap_is_linear (W : World) (s : ModelLaser) (hwf : s.wf)
    (hres : 1 < s.resolution) :
    (noWrap s → ∃ u, Update W (s.sample_count + 1) s = .ok u) ∧
    ∀ fuel u, Update W fuel s = .ok u →
      ∀ t g, s.resolution ∣ t → 0 < t → t < s.sample_count →
        1 ≤ g → g ≤ s.resolution - 1 →
        ∃ x, u.model.samples[t - g]? = some x ∧
          x.range =
            (W.Raytrace (bearingAt s (t / s.resolution)) s.range_max).range -
              (g : ℚ) *
                ((W.Raytrace (bearingAt s (t / s.resolution)) s.range_max).range -
                  (W.Raytrace (bearingAt s ((t - s.resolution) / s.resolution))
                    s.range_max).range) / (s.resolution : ℚ) ∧
          (∃ a, u.model.samples[t]? = some a ∧
            a.range = (W.Raytrace (bearingAt s (t / s.resolution)) s.range_max).range) ∧
          (∃ b, u.model.samples[t - s.resolution]? = some b ∧
            b.range = (W.Raytrace (bearingAt s ((t - s.resolution) / s.resolution))
              s.range_max).range) := by
  have hr : 1 ≤ s.resolution := by omega
  refine ⟨Update_total W s hwf hr, ?_⟩
  intro fuel u h t g hd ht0 ht hg1 hg
  obtain ⟨_, _, _, hbuf⟩ := Update_post W s hwf hr (by omega) fuel u h
  obtain ⟨k, rfl⟩ := hd
  rw [Nat.mul_comm] at ht ht0 ⊢
  have hk : 1 ≤ k := by
    rcases Nat.eq_zero_or_pos k with h0 | h0
    · rw [h0] at ht0; simp at ht0
    · exact h0
  obtain ⟨j, rfl⟩ : ∃ j, k = j + 1 := ⟨k - 1, by omega⟩
  have hsm : (j + 1) * s.resolution = j * s.resolution + s.resolution := Nat.succ_mul _ _
  have hdiv : (j + 1) * s.resolution / s.resolution = j + 1 :=
    Nat.mul_div_cancel _ (by omega)
  have hprev : (j + 1) * s.resolution - s.resolution = j * s.resolution := by omega
  have hdivp : j * s.resolution / s.resolution = j := Nat.mul_div_cancel _ (by omega)
  have hidx : (j + 1) * s.resolution - g = j * s.resolution + (s.resolution - g) := by omega
  have hcast : ((s.resolution - (s.resolution - g) : Nat) : ℚ) = (g : ℚ) := by
    congr 1; omega
  refine ⟨
    { range := (castSample W s (j + 1)).range -
        ((s.resolution - (s.resolution - g) : Nat) : ℚ) *
          ((castSample W s (j + 1)).range - (castSample W s j).range) / (s.resolution : ℚ)
      reflectance := (castSample W s j).reflectance },
    ?_, ?_, ⟨castSample W s (j + 1), ?_, ?_⟩, ⟨castSample W s j, ?_, ?_⟩⟩
  · rw [hbuf _ (by omega), hidx,
      scanAt_gap W s j (s.resolution - g) (by omega) (by omega) ht]
  · simp only [hdiv, hprev, hdivp, hcast]
    rfl
  · rw [hbuf _ ht, scanAt_boundary W s (j + 1) hr]
  · rw [hdiv]; rfl
  · rw [hprev, hbuf _ (by omega), scanAt_boundary W s j hr]
  · rw [hprev, hdivp]; rfl

/-- Witness of C4: index `4 - 1` of the scan of five samples at resolution two. -/
theorem C4_witness :
    ex5by2.wf ∧ 1 < ex5by2.resolution ∧ noWrap ex5by2 ∧
    (∃ u, Update exWorld (ex5by2.sample_count + 1) ex5by2 = .ok u) ∧
    ∃ x, ex5by2_scan.model.samples[4 - 1]? = some x ∧
      x.range =
        (exWorld.Raytrace (bearingAt ex5by2 (4 / ex5by2.resolution)) ex5by2.range_max).range -
          ((1 : Nat) : ℚ) *
            ((exWorld.Raytrace (bearingAt ex5by2 (4 / ex5by2.resolution))
                ex5by2.range_max).range -
              (exWorld.Raytrace (bearingAt ex5by2 ((4 - ex5by2.resolution) / ex5by2.resolution))
                ex5by2.range_max).range) / (ex5by2.resolution : ℚ) ∧
      (∃ a, ex5by2_scan.model.samples[4]? = some a ∧
        a.range = (exWorld.Raytrace (bearingAt ex5by2 (4 / ex5by2.resolution))
          ex5by2.range_max).range) ∧
      (∃ b, ex5by2_scan.model.samples[4 - ex5by2.resolution]? = some b ∧
        b.range = (exWorld.Raytrace
          (bearingAt ex5by2 ((4 - ex5by2.resolution) / ex5by2.resolution))
          ex5by2.range_max).range) :=
  ⟨by decide, by decide, by decide,
    (C4_gap_is_linear exWorld ex5by2 (by decide) (by decide)).1 (by decide),
    (C4_gap_is_linear exWorld ex5by2 (by decide) (by decide)).2 6 ex5by2_scan
      Update_ex5by2 4 1 (by decide) (by decide) (by decide) (by decide) (by decide)⟩

/-- C5: for `resolution > 1` and every index `i` strictly between two
boundaries `left` and `left + resolution` (`left` a multiple of `resolution`,
`left + resolution` inside the scan), a completed `Update` holds at `i` the
reflectance that the cast made for `left` stored and that the buffer holds at
`left`, whatever the world returns for the right boundary.  `Update` completes
whenever the loop counter does not wrap. -/
theorem C5_reflectance_from_left (W : World) (s : ModelLaser) (hwf : s.wf)
    (hres : 1 < s.resolution) :
    (noWrap s → ∃ u, Update W (s.sample_count + 1) s = .ok u) ∧
    ∀ fuel u, Update W fuel s = .ok u →
      ∀ left i, s.resolution ∣ left → left + s.resolution < s.sample_count →
        left < i → i < left + s.resolution →
        ∃ a x, u.model.samples[left]? = some a ∧ u.model.samples[i]? = some x ∧
          x.reflectance = a.reflectance ∧
          a.reflectance =
            reflectanceOf W (W.Raytrace (bearingAt s (left / s.resolution)) s.range_max) := by
  have hr : 1 ≤ s.resolution := by omega
  refine ⟨Update_total W s hwf hr, ?_⟩
  intro fuel u h left i hd hin hli hir
  obtain ⟨_, _, _, hbuf⟩ := Update_post W s hwf hr (by omega) fuel u h
  obtain ⟨k, rfl⟩ := hd
  rw [Nat.mul_comm] at hin hli hir ⊢
  have hin' : (k + 1) * s.resolution < s.sample_count := by rw [Nat.succ_mul]; exact hin
  have hdiv : k * s.resolution / s.resolution = k := Nat.mul_div_cancel _ (by omega)
  obtain ⟨g, rfl⟩ : ∃ g, i = k * s.resolution + g := ⟨i - k * s.resolution, by omega⟩
  refine ⟨castSample W s k,
    { range := (castSample W s (k + 1)).range -
        ((s.resolution - g : Nat) : ℚ) *
          ((castSample W s (k + 1)).range - (castSample W s k).range) / (s.resolution : ℚ)
      reflectance := (castSample W s k).reflectance }, ?_, ?_, ?_, ?_⟩
  · rw [hbuf _ (by omega), scanAt_boundary W s k hr]
  · rw [hbuf _ (by omega), scanAt_gap W s k g (by omega) (by omega) hin']
  · rfl
  · rw [hdiv]; rfl

/-- Witness of C5: index 1 of the scan of five samples at resolution two
holds the reflectance 1 of index 0, while index 2 holds reflectance 0. -/
theorem C5_witness :
    ex5by2.wf ∧ 1 < ex5by2.resolution ∧ noWrap ex5by2 ∧
    (∃ u, Update exWorld (ex5by2.sample_count + 1) ex5by2 = .ok u) ∧
    ∃ a x, ex5by2_scan.model.samples[0]? = some a ∧
      ex5by2_scan.model.samples[1]? = some x ∧ x.reflectance = a.reflectance ∧
      a.reflectance = reflectanceOf exWorld
        (exWorld.Raytrace (bearingAt ex5by2 (0 / ex5by2.resolution)) ex5by2.range_max) :=
  ⟨by decide, by decide, by decide,
    (C5_reflectance_from_left exWorld ex5by2 (by decide) (by decide)).1 (by decide),
    (C5_reflectance_from_left exWorld ex5by2 (by decide) (by decide)).2 6 ex5by2_scan
      Update_ex5by2 0 1 (by decide) (by decide) (by decide) (by decide)⟩

/-- C7 (code bug): `Update` does not write the samples behind the last cast.
With four samples at resolution two, index 3 is neither cast nor interpolated:
two scans of the same world that start from buffers differing at index 3 end
with different buffers, each holding at index 3 what was there before. -/
theorem C7_trailing_sample_not_written :
    Update exWorld 5 (ex4by2 ⟨9, 0⟩) = .ok (ex4by2_scan ⟨9, 0⟩) ∧
    Update exWorld 5 (ex4by2 ⟨5, 1⟩) = .ok (ex4by2_scan ⟨5, 1⟩) ∧
    (ex4by2_scan ⟨9, 0⟩).model.samples[3]? = some ⟨9, 0⟩ ∧
    (ex4by2_scan ⟨5, 1⟩).model.samples[3]? = some ⟨5, 1⟩ ∧
    (ex4by2_scan ⟨9, 0⟩).model.samples ≠ (ex4by2_scan ⟨5, 1⟩).model.samples :=
  ⟨Update_ex4by2_nine, Update_ex4by2_five, rfl, rfl, by decide⟩

/-- C8 (code bug): `SetSamples` renews and fills the buffer for the sample
count the model had before the call and only then stores the new count.
Injecting three samples into a model of two leaves a buffer of the first two
while `GetSamples` reports three; injecting two samples into a freshly
constructed model (180 samples) reads past the end of the two supplied. -/
theorem C8_SetSamples_uses_old_count :
    (∃ m, SetSamples exWorld exInjected 3 exTwo = .ok m ∧
      GetSamples m = ([⟨3, 0⟩, ⟨4, 1⟩], 3) ∧ (GetSamples m).1.length ≠ (GetSamples m).2 ∧
      (GetSamples m).1 ≠ exInjected ∧ m.data_dirty = true) ∧
    SetSamples exWorld [⟨3, 0⟩, ⟨4, 1⟩] 2 ModelLaser.new = .error .outOfBounds := by
  refine ⟨⟨{ exTwo with samples := [⟨3, 0⟩, ⟨4, 1⟩], sample_count := 3, data_dirty := true },
    ?_, ?_, ?_, ?_, rfl⟩, ?_⟩
  · simp [SetSamples, exTwo, exInjected, g_renew, ModelLaser.new, List.range, List.range.loop]
  · rfl
  · simp [GetSamples]
  · simp [GetSamples, exInjected]
  · simp [SetSamples, ModelLaser.new, DEFAULT_SAMPLES]

/-- C9, refuted as stated: a worldfile that asks for one sample is loaded
without complaint, and `Update` then runs with the divisor
`sample_count - 1 = 0`, makes a cast and replaces the empty buffer by a
buffer of one sample. -/
theorem C9_counterexample :
    (Load exOneSample ModelLaser.new).sample_count = 1 ∧
    sample_incr_den (Load exOneSample ModelLaser.new) = 0 ∧
    ∃ u, Update exWorld 2 (Load exOneSample ModelLaser.new) = .ok u ∧
      u.casts = [⟨0, -2, 8⟩] ∧ u.model.samples = [⟨6, 1⟩] ∧
      u.model.samples ≠ (Load exOneSample ModelLaser.new).samples := by
  rw [Load_exOneSample]
  refine ⟨rfl, by decide, _, Update_exOneSample, rfl, rfl, ?_⟩
  simp [ModelLaser.new]

/-- C9, amended: a sample count below two is not rejected.  `Load` stores the
count the worldfile gives, and `Update` runs on it.  With one sample (and
`resolution ≥ 1`) the divisor `sample_count - 1` of the bearing step is zero,
`Update` completes, and it leaves a buffer of one sample, the cast at bearing
`-fov/2`, with the dirty flag set; with no sample it completes with an empty
buffer and no cast. -/
theorem C9_small_counts_are_scanned (W : World) (s : ModelLaser) (hwf : s.wf)
    (hr : 1 ≤ s.resolution) :
    (∀ (f : Worldfile) (v : Int), f.samples = some v → (Load f s).sample_count = toUInt v) ∧
    (s.sample_count = 1 →
      sample_incr_den s = 0 ∧
      (∃ u, Update W (s.sample_count + 1) s = .ok u) ∧
      ∀ fuel u, Update W fuel s = .ok u →
        u.casts = [⟨0, - s.fov / 2, s.range_max⟩] ∧
        u.model.samples =
          [{ range := (W.Raytrace (- s.fov / 2) s.range_max).range
             reflectance := reflectanceOf W (W.Raytrace (- s.fov / 2) s.range_max) }] ∧
        u.model.data_dirty = true) ∧
    (s.sample_count = 0 →
      ∀ fuel, Update W (fuel + 1) s =
        Except.ok { model := { s with samples := [], data_dirty := true }, casts := [] }) := by
  refine ⟨?_, ?_, ?_⟩
  · intro f v hv
    simp [Load, ReadInt, hv]
  · intro h1
    have hnw : noWrap s := by
      unfold noWrap lastCast
      rw [h1]
      have := hwf.2
      simp
      exact this
    have hb0 : bearingAt s 0 = - s.fov / 2 := by simp [bearingAt]
    refine ⟨by simp [sample_incr_den, usub, h1], Update_total W s hwf hr hnw, ?_⟩
    intro fuel u h
    obtain ⟨hcasts, hmodel, hlen, hbuf⟩ := Update_post W s hwf hr (by omega) fuel u h
    have hn : numCasts s = 1 := by
      unfold numCasts
      rw [h1]
      have : 1 + s.resolution - 1 = s.resolution := by omega
      rw [this, Nat.div_self (by omega)]
    refine ⟨?_, ?_, ?_⟩
    · rw [hcasts, hn]
      simp [castLog, hb0, List.range, List.range.loop]
    · have h0 := hbuf 0 (by omega)
      have hs := scanAt_boundary W s 0 hr
      rw [Nat.zero_mul] at hs
      rw [hs] at h0
      rw [singleton_of_getElem? (by rw [hlen, h1]) h0]
      simp only [castSample, hb0]
    · rw [hmodel]
  · intro h0 fuel
    unfold Update
    simp only
    have hc : castLoop W s (fuel + 1) 0
        { samples := g_renew W.fresh s.samples s.sample_count, bearing := - s.fov / 2,
          casts := [] } =
        Except.ok
          { samples := g_renew W.fresh s.samples s.sample_count, bearing := - s.fov / 2,
            casts := [] } := by
      unfold castLoop
      simp [h0]
    have hi : interpLoop s (fuel + 1) s.resolution (g_renew W.fresh s.samples s.sample_count) =
        .ok (g_renew W.fresh s.samples s.sample_count) := by
      unfold interpLoop
      simp [h0]
    rw [hc]
    simp only [hi]
    have hg : g_renew W.fresh s.samples s.sample_count = [] := by
      simp [g_renew, h0]
    by_cases hres : s.resolution > 1
    · simp [hres, hg]
    · simp [hres, hg]

/-- Witness of C9 (amended): a worldfile that asks for one sample, and the
freshly constructed model set to one sample and to none. -/
theorem C9_witness :
    ({ ModelLaser.new with sample_count := 1 } : ModelLaser).wf ∧
    1 ≤ ({ ModelLaser.new with sample_count := 1 } : ModelLaser).resolution ∧
    (Load exOneSample ModelLaser.new).sample_count = toUInt 1 ∧
    sample_incr_den { ModelLaser.new with sample_count := 1 } = 0 ∧
    (∃ u, Update exWorld
      (({ ModelLaser.new with sample_count := 1 } : ModelLaser).sample_count + 1)
      { ModelLaser.new with sample_count := 1 } = .ok u) ∧
    Update exWorld (0 + 1) { ModelLaser.new with sample_count := 0 } =
      Except.ok
        { model := { ({ ModelLaser.new with sample_count := 0 } : ModelLaser) with
            samples := [], data_dirty := true }
          casts := [] } :=
  have h := (C9_small_counts_are_scanned exWorld { ModelLaser.new with sample_count := 1 }
    (by decide) (by decide)).2.1 rfl
  ⟨by decide, by decide,
    (C9_small_counts_are_scanned exWorld ModelLaser.new (by decide) (by decide)).1
      exOneSample 1 rfl,
    h.1, h.2.1,
    (C9_small_counts_are_scanned exWorld { ModelLaser.new with sample_count := 0 }
      (by decide) (by decide)).2.2 rfl 0⟩

/-- C10, refuted as stated: `sample_count ≥ 2 ∧ resolution ≥ 1` holds for a
freshly constructed model, but not after loading a worldfile that asks for one
sample, not after `SetConfig` with resolution zero, and not after `SetSamples`
with count one. -/
theorem C10_counterexample :
    (2 ≤ ModelLaser.new.sample_count ∧ 1 ≤ ModelLaser.new.resolution) ∧
    ¬ (2 ≤ (Load exOneSample ModelLaser.new).sample_count ∧
        1 ≤ (Load exOneSample ModelLaser.new).resolution) ∧
    ¬ (2 ≤ (SetConfig exZeroResolution ModelLaser.new).sample_count ∧
        1 ≤ (SetConfig exZeroResolution ModelLaser.new).resolution) ∧
    ∃ m, SetSamples exWorld exInjected 1 exTwo = .ok m ∧
      ¬ (2 ≤ m.sample_count ∧ 1 ≤ m.resolution) := by
  refine ⟨by decide, ?_, by decide, _, SetSamples_exTwo_one, by decide⟩
  rw [Load_exOneSample]
  decide

/-- C10, amended: `sample_count ≥ 2 ∧ resolution ≥ 1` holds after
construction.  Of the operations, `Load` yields `resolution ≥ 1` for every
worldfile and stores the sample count it reads as it is (the old count when
the worldfile gives none); `SetConfig` keeps the sample count; `SetSamples`
keeps the resolution and stores the count it is given as it is. -/
theorem C10_what_is_defended :
    (2 ≤ ModelLaser.new.sample_count ∧ 1 ≤ ModelLaser.new.resolution) ∧
    (∀ (f : Worldfile) (s : ModelLaser), 1 ≤ (Load f s).resolution) ∧
    (∀ (f : Worldfile) (s : ModelLaser) (v : Int), f.samples = some v →
      (Load f s).sample_count = toUInt v) ∧
    (∀ (f : Worldfile) (s : ModelLaser), s.wf → f.samples = none →
      (Load f s).sample_count = s.sample_count) ∧
    (∀ (cfg : stg_laser_cfg_t) (s : ModelLaser),
      (SetConfig cfg s).sample_count = s.sample_count) ∧
    (∀ (W : World) (samples : List stg_laser_sample_t) (count : Nat) (s m : ModelLaser),
      SetSamples W samples count s = .ok m →
        m.resolution = s.resolution ∧ m.sample_count = count) := by
  refine ⟨by decide, Load_resolution_pos, ?_, ?_, fun _ _ => rfl, ?_⟩
  · intro f s v hv
    simp [Load, ReadInt, hv]
  · intro f s hwf hv
    simp only [Load, ReadInt, hv, Option.getD_none]
    exact toUInt_toInt hwf.1
  · intro W samples count s m h
    unfold SetSamples at h
    split at h
    · simp only [Except.ok.injEq] at h
      subst h
      exact ⟨rfl, rfl⟩
    · exact absurd h (by simp)

/-- Witness of C10 (amended): loading a worldfile that asks for one sample,
loading one that sets nothing, and injecting samples with count one into a
model of two. -/
theorem C10_witness :
    (Load exOneSample ModelLaser.new).sample_count = toUInt 1 ∧
    (Load exEmptyEntity ModelLaser.new).sample_count = ModelLaser.new.sample_count ∧
    (∃ m, SetSamples exWorld exInjected 1 exTwo = .ok m ∧
      m.resolution = exTwo.resolution ∧ m.sample_count = 1) :=
  ⟨C10_what_is_defended.2.2.1 exOneSample ModelLaser.new 1 rfl,
    C10_what_is_defended.2.2.2.1 exEmptyEntity ModelLaser.new (by decide) rfl,
    _, SetSamples_exTwo_one,
    C10_what_is_defended.2.2.2.2.2 exWorld exInjected 1 exTwo _ SetSamples_exTwo_one⟩

/-! ### Further facts about a completed scan -/

theorem noWrap_of_resolution_one {s : ModelLaser} (hwf : s.wf) (h1 : s.resolution = 1) :
    noWrap s := by
  have hsc := hwf.1
  unfold noWrap lastCast UINT at *
  rw [h1]
  simp
  omega

theorem reflectanceOf_cases (W : World) (r : stg_raytrace_result_t) :
    reflectanceOf W r = 0 ∨ reflectanceOf W r = 1 := by
  unfold reflectanceOf
  split
  · split
    · exact Or.inr rfl
    · exact Or.inl rfl
  · exact Or.inl rfl

/-- Below the last cast every index that is not a boundary lies in a gap
whose right boundary is inside the scan. -/
theorem gap_closed_of_le_lastCast {s : ModelLaser} {i : Nat} (hsc : 1 ≤ s.sample_count)
    (hi : i ≤ lastCast s) (hd : ¬ s.resolution ∣ i) :
    (i / s.resolution + 1) * s.resolution < s.sample_count := by
  have hL := lastCast_lt hsc
  have hr : 0 < s.resolution := by
    rcases Nat.eq_zero_or_pos s.resolution with h | h
    · exfalso; apply hd; rw [h]
      have : lastCast s = 0 := by unfold lastCast; rw [h]; simp
      have : i = 0 := by omega
      rw [this]
    · exact h
  have hne : i ≠ lastCast s := by
    intro h; apply hd; rw [h]; unfold lastCast; exact Nat.dvd_mul_right _ _
  have hlt : i < ((s.sample_count - 1) / s.resolution) * s.resolution := by
    rw [Nat.mul_comm]
    unfold lastCast at hi hne
    omega
  have hq : i / s.resolution < (s.sample_count - 1) / s.resolution :=
    (Nat.div_lt_iff_lt_mul hr).2 hlt
  have : (i / s.resolution + 1) * s.resolution ≤
      ((s.sample_count - 1) / s.resolution) * s.resolution := Nat.mul_le_mul_right _ hq
  have hL' : ((s.sample_count - 1) / s.resolution) * s.resolution = lastCast s := by
    unfold lastCast; exact Nat.mul_comm _ _
  omega

/-- Behind the last cast no index is a boundary and no gap is closed. -/
theorem open_of_lastCast_lt {s : ModelLaser} {i : Nat} (hr : 1 ≤ s.resolution)
    (hL : lastCast s < i) (hi : i < s.sample_count) :
    ¬ s.resolution ∣ i ∧ ¬ (i / s.resolution + 1) * s.resolution < s.sample_count := by
  constructor
  · rintro ⟨k, rfl⟩
    rw [Nat.mul_comm] at hi hL
    have := mul_le_lastCast hr hi
    omega
  · intro h
    have h1 := mul_le_lastCast hr h
    have h2 : i < s.resolution * (i / s.resolution + 1) := Nat.lt_mul_div_succ i hr
    rw [Nat.mul_comm] at h2
    omega

theorem scanAt_behind (W : World) (s : ModelLaser) (hr : 1 ≤ s.resolution) (i : Nat)
    (hL : lastCast s < i) (hi : i < s.sample_count) (hlen : s.samples.length = s.sample_count) :
    scanAt W s i = s.samples[i]? := by
  obtain ⟨hd, hg⟩ := open_of_lastCast_lt hr hL hi
  unfold scanAt
  rw [if_neg hd, if_neg hg, g_renew_getElem? _ _ _ _ hi]
  obtain ⟨x, hx⟩ := getElem?_isSome s.samples i (by omega)
  rw [hx]; rfl

theorem scanAt_written (W : World) (s : ModelLaser) (hsc : 1 ≤ s.sample_count) (i : Nat)
    (hi : i ≤ lastCast s) :
    scanAt W s i = some
      (if s.resolution ∣ i then castSample W s (i / s.resolution)
       else interpSample (castSample W s) s.resolution i) := by
  unfold scanAt
  by_cases hd : s.resolution ∣ i
  · rw [if_pos hd, if_pos hd]
  · rw [if_neg hd, if_neg hd, if_pos (gap_closed_of_le_lastCast hsc hi hd)]

theorem lastCast_eq_iff (s : ModelLaser) (hsc : 1 ≤ s.sample_count) :
    (∀ i, i < s.sample_count → i ≤ lastCast s) ↔ s.resolution ∣ (s.sample_count - 1) := by
  have hL := lastCast_le s
  constructor
  · intro h
    have := h (s.sample_count - 1) (by omega)
    have heq : lastCast s = s.sample_count - 1 := by omega
    rw [← heq]; unfold lastCast; exact Nat.dvd_mul_right _ _
  · intro hd i hi
    have heq : lastCast s = s.sample_count - 1 := by
      unfold lastCast; exact Nat.mul_div_cancel' hd
    omega

/-- A second scan in the same world and configuration, whatever the
allocator hands out, leaves what the first scan left. -/
theorem Update_again (W : World) (f2 : Nat → stg_laser_sample_t) (s : ModelLaser)
    (hwf : s.wf) (hr : 1 ≤ s.resolution) (hsc : 1 ≤ s.sample_count)
    (fuel fuel2 : Nat) (u u2 : Updated) (h1 : Update W fuel s = .ok u)
    (h2 : Update { W with fresh := f2 } fuel2 u.model = .ok u2) : u2 = u := by
  obtain ⟨hc1, hm1, hl1, hb1⟩ := Update_post W s hwf hr hsc fuel u h1
  obtain ⟨⟨d, X, n, rmin, rmax, fv, res, itv⟩, c⟩ := u
  simp only [ModelLaser.mk.injEq] at hm1
  obtain ⟨rfl, -, rfl, rfl, rfl, rfl, rfl, rfl⟩ := hm1
  simp only at hc1 hl1 hb1
  obtain ⟨hc2, hm2, hl2, hb2⟩ :=
    Update_post { W with fresh := f2 } { s with samples := X, data_dirty := true }
      hwf hr hsc fuel2 u2 h2
  obtain ⟨⟨d2, X2, n2, rmin2, rmax2, fv2, res2, itv2⟩, c2⟩ := u2
  simp only [ModelLaser.mk.injEq] at hm2
  obtain ⟨rfl, -, rfl, rfl, rfl, rfl, rfl, rfl⟩ := hm2
  simp only at hc2 hl2 hb2
  have hX : X2 = X := by
    apply List.ext_getElem?
    intro i
    by_cases hi : i < s.sample_count
    · rw [hb2 i hi]
      unfold scanAt
      by_cases hd : s.resolution ∣ i
      · rw [if_pos hd, hb1 i hi]
        unfold scanAt
        rw [if_pos hd]
        rfl
      · rw [if_neg hd]
        by_cases hg : (i / s.resolution + 1) * s.resolution < s.sample_count
        · rw [if_pos hg, hb1 i hi]
          unfold scanAt
          rw [if_neg hd, if_pos hg]
          rfl
        · rw [if_neg hg, g_renew_getElem? _ _ _ _ hi]
          obtain ⟨x, hx⟩ := getElem?_isSome X i (by omega)
          rw [hx]; rfl
    · rw [List.getElem?_eq_none (by omega), List.getElem?_eq_none (by omega)]
  subst hX
  rw [hc1, hc2]
  rfl

/-- A linear interpolation lies between its two ends. -/
theorem interp_between (lo up : ℚ) (g r : Nat) (hg : g ≤ r) (hr : 0 < r) :
    min lo up ≤ up - (g : ℚ) * (up - lo) / (r : ℚ) ∧
    up - (g : ℚ) * (up - lo) / (r : ℚ) ≤ max lo up := by
  have hrq : (0 : ℚ) < (r : ℚ) := by exact_mod_cast hr
  have hgq : (g : ℚ) ≤ (r : ℚ) := by exact_mod_cast hg
  have hg0 : (0 : ℚ) ≤ (g : ℚ) := by exact_mod_cast Nat.zero_le g
  have hw0 : (0 : ℚ) ≤ (g : ℚ) / (r : ℚ) := div_nonneg hg0 (le_of_lt hrq)
  have hw1 : (g : ℚ) / (r : ℚ) ≤ 1 := (div_le_one hrq).2 hgq
  have e : up - (g : ℚ) * (up - lo) / (r : ℚ) = up - (g : ℚ) / (r : ℚ) * (up - lo) := by ring
  rw [e]
  rcases le_total lo up with h | h
  · rw [min_eq_left h, max_eq_right h]
    have hd : 0 ≤ up - lo := sub_nonneg.2 h
    have h1 := mul_nonneg hw0 hd
    have h2 := mul_le_of_le_one_left hd hw1
    constructor <;> linarith
  · rw [min_eq_right h, max_eq_left h]
    have hd : 0 ≤ lo - up := sub_nonneg.2 h
    have h1 := mul_nonneg hw0 hd
    have h2 := mul_le_of_le_one_left hd hw1
    constructor <;> linarith

theorem mod_pos_of_not_dvd {r i : Nat} (hd : ¬ r ∣ i) : 0 < i % r := by
  rcases Nat.eq_zero_or_pos (i % r) with h | h
  · exact absurd (Nat.dvd_of_mod_eq_zero h) hd
  · exact h

theorem Update_exMinRange :
    Update exNearWorld 3 exMinRange =
      Except.ok
        { model := { exMinRange with samples := [⟨1 / 2, 0⟩, ⟨1 / 2, 0⟩], data_dirty := true }
          casts := [⟨0, -2, 8⟩, ⟨1, 2, 8⟩] } := by
  simp [Update, castLoop, interpLoop, gapLoop, store, g_renew, exNearWorld, exMinRange,
    ModelLaser.new, uadd, usub, UINT, sample_incr, sample_incr_den, reflectanceOf,
    DEFAULT_SAMPLES, DEFAULT_MAXRANGE, DEFAULT_RESOLUTION, List.range, List.range.loop]
  norm_num

/-! ### Counting the iterations of the cast loop -/

theorem castLoop_step (W : World) (s : ModelLaser) (fuel t : Nat) (sc : Scan)
    (ht : t < s.sample_count) (hlen : sc.samples.length = s.sample_count) :
    ∃ sc', sc'.samples.length = s.sample_count ∧
      sc'.casts = sc.casts ++ [⟨t, sc.bearing, s.range_max⟩] ∧
      castLoop W s (fuel + 1) t sc = castLoop W s fuel (uadd t s.resolution) sc' := by
  obtain ⟨b1, h1⟩ := store_isSome sc.samples t
    (fun x => { x with range := (W.Raytrace sc.bearing s.range_max).range })
    (by rw [hlen]; exact ht)
  have hl1 := (store_eq_some h1).1
  obtain ⟨b2, h2⟩ := store_isSome b1 t
    (fun x => { x with reflectance := reflectanceOf W (W.Raytrace sc.bearing s.range_max) })
    (by rw [hl1, hlen]; exact ht)
  have hl2 := (store_eq_some h2).1
  refine ⟨{ samples := b2, bearing := sc.bearing + sample_incr s,
            casts := sc.casts ++ [⟨t, sc.bearing, s.range_max⟩] }, ?_, rfl, ?_⟩
  · show b2.length = s.sample_count
    rw [hl2, hl1, hlen]
  · conv => lhs; unfold castLoop
    simp only [ht, if_true, h1, h2]

theorem castLoop_exit (W : World) (s : ModelLaser) (fuel t : Nat) (sc : Scan)
    (ht : ¬ t < s.sample_count) : castLoop W s (fuel + 1) t sc = .ok sc := by
  unfold castLoop
  simp [ht]

/-- The cast loop ends within one test more than the number of boundaries
left. -/
theorem castLoop_total_tight (W : World) (s : ModelLaser) (hr : 1 ≤ s.resolution)
    (hnw : noWrap s) :
    ∀ fuel k sc, sc.samples.length = s.sample_count →
      s.sample_count ≤ (fuel + k) * s.resolution →
      ∃ out, castLoop W s (fuel + 1) (k * s.resolution) sc = .ok out := by
  intro fuel
  induction fuel with
  | zero =>
    intro k sc _ h
    rw [Nat.zero_add] at h
    exact ⟨sc, castLoop_exit W s 0 _ sc (by omega)⟩
  | succ fuel ih =>
    intro k sc hlen h
    by_cases ht : k * s.resolution < s.sample_count
    · obtain ⟨sc', hl', _, hstep⟩ := castLoop_step W s (fuel + 1) _ sc ht hlen
      have hle := mul_le_lastCast hr ht
      have hnext : uadd (k * s.resolution) s.resolution = (k + 1) * s.resolution := by
        rw [uadd_eq (by unfold noWrap at hnw; omega), Nat.succ_mul]
      rw [hstep, hnext]
      exact ih (k + 1) sc' hl' (by rw [show fuel + (k + 1) = fuel + 1 + k by omega]; exact h)
    · exact ⟨sc, castLoop_exit W s _ _ sc ht⟩

/-- The cast loop does not end while boundaries are left. -/
theorem castLoop_outOfFuel (W : World) (s : ModelLaser) (hr : 1 ≤ s.resolution)
    (hnw : noWrap s) :
    ∀ fuel k sc, sc.samples.length = s.sample_count →
      (∀ j, j < k + fuel → j * s.resolution < s.sample_count) →
      castLoop W s fuel (k * s.resolution) sc = .error .outOfFuel := by
  intro fuel
  induction fuel with
  | zero => intro k sc _ _; rfl
  | succ fuel ih =>
    intro k sc hlen h
    have ht : k * s.resolution < s.sample_count := h k (by omega)
    obtain ⟨sc', hl', _, hstep⟩ := castLoop_step W s fuel _ sc ht hlen
    have hle := mul_le_lastCast hr ht
    have hnext : uadd (k * s.resolution) s.resolution = (k + 1) * s.resolution := by
      rw [uadd_eq (by unfold noWrap at hnw; omega), Nat.succ_mul]
    rw [hstep, hnext]
    exact ih (k + 1) sc' hl' (fun j hj => h j (by omega))

theorem sample_count_le_numCasts_mul {s : ModelLaser} (hr : 1 ≤ s.resolution) :
    s.sample_count ≤ numCasts s * s.resolution := by
  by_contra h
  have := (lt_numCasts_iff hr (numCasts s)).2 (by omega)
  omega

theorem Update_zero (W : World) (s : ModelLaser) (h0 : s.sample_count = 0) (fuel : Nat) :
    Update W (fuel + 1) s =
      Except.ok { model := { s with samples := [], data_dirty := true }, casts := [] } := by
  unfold Update
  simp only
  have hg : g_renew W.fresh s.samples s.sample_count = [] := by
    simp [g_renew, h0]
  rw [hg, castLoop_exit W s fuel 0 _ (by omega)]
  have hi : interpLoop s (fuel + 1) s.resolution [] = .ok [] := by
    unfold interpLoop
    simp [h0]
  by_cases hres : s.resolution > 1
  · simp [hres, hi]
  · simp [hres]

/-! ### Which faults can occur -/

theorem store_error {buf : List stg_laser_sample_t} {i : Nat}
    {f : stg_laser_sample_t → stg_laser_sample_t} {e : Fault}
    (h : store buf i f = .error e) : e = .outOfBounds := by
  unfold store at h
  cases hx : buf[i]? with
  | none =>
    simp only [hx, Except.error.injEq] at h
    exact h.symm
  | some x => simp [hx] at h

/-- The cast loop stays inside the buffer, whatever the configuration: it can
only run out of fuel. -/
theorem castLoop_fault (W : World) (s : ModelLaser) :
    ∀ fuel t sc e, sc.samples.length = s.sample_count →
      castLoop W s fuel t sc = .error e → e = .outOfFuel := by
  intro fuel
  induction fuel with
  | zero =>
    intro t sc e _ h
    simp only [castLoop, Except.error.injEq] at h
    exact h.symm
  | succ fuel ih =>
    intro t sc e hlen h
    by_cases ht : t < s.sample_count
    · obtain ⟨sc', hl', _, hstep⟩ := castLoop_step W s fuel t sc ht hlen
      rw [hstep] at h
      exact ih _ sc' e hl' h
    · rw [castLoop_exit W s fuel t sc ht] at h
      exact absurd h (by simp)

/-- When the counter does not wrap, the interpolation pass stays inside the
buffer: it can only run out of fuel. -/
theorem interpLoop_fault (s : ModelLaser) (hwf : s.wf) (hr : 1 ≤ s.resolution)
    (hnw : noWrap s) :
    ∀ fuel k buf e, 1 ≤ k → buf.length = s.sample_count →
      interpLoop s fuel (k * s.resolution) buf = .error e → e = .outOfFuel := by
  intro fuel
  induction fuel with
  | zero =>
    intro k buf e _ _ h
    simp only [interpLoop, Except.error.injEq] at h
    exact h.symm
  | succ fuel ih =>
    intro k buf e hk hlen h
    unfold interpLoop at h
    by_cases ht : k * s.resolution < s.sample_count
    · simp only [ht, if_true] at h
      obtain ⟨b, hb⟩ := gapLoop_total s hwf k hk ht s.resolution 1 buf hlen (le_refl 1)
        (by omega)
      have hlb := gapLoop_length s _ _ _ _ _ hb
      simp only [hb] at h
      have hle := mul_le_lastCast hr ht
      have hnext : uadd (k * s.resolution) s.resolution = (k + 1) * s.resolution := by
        rw [uadd_eq (by unfold noWrap at hnw; omega), Nat.succ_mul]
      rw [hnext] at h
      exact ih (k + 1) b e (by omega) (by omega) h
    · simp [ht] at h

/-- When the counter does not wrap, every access of `Update` is inside the
buffer: `Update` can only run out of fuel. -/
theorem Update_fault (W : World) (s : ModelLaser) (hwf : s.wf) (hr : 1 ≤ s.resolution)
    (hnw : noWrap s) (fuel : Nat) (e : Fault) (h : Update W fuel s = .error e) :
    e = .outOfFuel := by
  unfold Update at h
  simp only at h
  cases hc : castLoop W s fuel 0
      { samples := g_renew W.fresh s.samples s.sample_count, bearing := - s.fov / 2, casts := [] } with
  | error e1 =>
    simp only [hc, Except.error.injEq] at h
    subst h
    exact castLoop_fault W s fuel 0 _ e1 (g_renew_length _ _ _) hc
  | ok sc =>
    simp only [hc] at h
    have hlen : sc.samples.length = s.sample_count := by
      rw [castLoop_length W s _ _ _ _ hc]; exact g_renew_length _ _ _
    by_cases hres : s.resolution > 1
    · simp only [hres, if_true] at h
      cases hi : interpLoop s fuel s.resolution sc.samples with
      | error e2 =>
        simp only [hi, Except.error.injEq] at h
        subst h
        rw [← Nat.one_mul s.resolution] at hi
        exact interpLoop_fault s hwf hr hnw fuel 1 sc.samples e2 (le_refl 1) hlen hi
      | ok buf => simp [hi] at h
    · simp [hres] at h

/-! ### When the counter wraps, the interpolation pass accesses `samples[2^32 - 1]` -/

/-- At a wrapped boundary `t` the inner loop, given the fuel to reach
`g = t + 1`, fails by an access outside the buffer. -/
theorem gapLoop_wrapped_outOfBounds (s : ModelLaser) (hwf : s.wf) (t : Nat)
    (ht2 : t + 2 ≤ s.resolution) (hts : t < s.sample_count) :
    ∀ fuel g buf, buf.length = s.sample_count → 1 ≤ g → g ≤ t + 1 → t + 2 ≤ fuel + g →
      gapLoop s t fuel g buf = .error .outOfBounds := by
  obtain ⟨hsc, hres⟩ := hwf
  intro fuel
  induction fuel with
  | zero => intro g buf _ _ hg hf; omega
  | succ fuel ih =>
    intro g buf hlen hg1 hgt hf
    unfold gapLoop
    have hg : g < s.resolution := by omega
    simp only [hg, if_true, ge_iff_le, Nat.not_le.2 hts, if_false]
    cases hsrc : buf[usub t s.resolution]? with
    | none => rfl
    | some src =>
      simp only []
      by_cases hlast : g = t + 1
      · have hidx : usub t g = UINT - 1 := by
          rw [usub_wrap (by omega) (by omega), hlast]; omega
        rw [hidx, store_eq_none _ (by rw [hlen]; omega)]
      · have hsubg : usub t g = t - g := usub_eq (by omega) (by omega)
        have haddg : uadd g 1 = g + 1 := uadd_eq (by omega)
        rw [hsubg, haddg]
        cases h1 : store buf (t - g) (fun _ => src) with
        | error e => rw [store_error h1]
        | ok b1 =>
          simp only []
          cases hl : b1[t]? with
          | none => rfl
          | some l =>
            cases hrr : b1[usub t s.resolution]? with
            | none => rfl
            | some r =>
              simp only []
              cases h2 : store b1 (t - g) (fun x =>
                  { x with range := l.range -
                      (g : ℚ) * (l.range - r.range) / (s.resolution : ℚ) }) with
              | error e => rw [store_error h2]
              | ok b2 =>
                simp only []
                exact ih (g + 1) b2
                  (by rw [(store_eq_some h2).1, (store_eq_some h1).1, hlen]) (by omega)
                  (by omega) (by omega)

/-- When the counter wraps, the interpolation pass, given the fuel to pass
the last boundary, fails by an access outside the buffer. -/
theorem interpLoop_wrapped_outOfBounds (s : ModelLaser) (hwf : s.wf) (hw : ¬ noWrap s) :
    ∀ fuel k buf, 1 ≤ k → k ≤ (s.sample_count - 1) / s.resolution →
      buf.length = s.sample_count →
      (s.sample_count - 1) / s.resolution + 2 ≤ k + fuel →
      interpLoop s fuel (k * s.resolution) buf = .error .outOfBounds := by
  have hsc := hwf.1
  have hres := hwf.2
  have hL := lastCast_le s
  unfold noWrap at hw
  have hsc1 : 1 ≤ s.sample_count := by
    by_contra h0
    have h00 : s.sample_count = 0 := by omega
    have : lastCast s = 0 := by unfold lastCast; simp [h00]
    omega
  have hLq : lastCast s = (s.sample_count - 1) / s.resolution * s.resolution := by
    unfold lastCast; exact Nat.mul_comm _ _
  intro fuel
  induction fuel with
  | zero => intro k buf _ hk _ hf; omega
  | succ fuel ih =>
    intro k buf hk hkq hlen hf
    have hkL : k * s.resolution ≤ lastCast s := by
      rw [hLq]; exact Nat.mul_le_mul_right _ hkq
    unfold interpLoop
    have ht : k * s.resolution < s.sample_count := by omega
    simp only [ht, if_true]
    obtain ⟨b, hb⟩ := gapLoop_total s hwf k hk ht s.resolution 1 buf hlen (le_refl 1)
      (by omega)
    have hlb : b.length = s.sample_count := by
      rw [gapLoop_length s _ _ _ _ _ hb, hlen]
    simp only [hb]
    by_cases hlt : k < (s.sample_count - 1) / s.resolution
    · have hle : (k + 1) * s.resolution ≤ lastCast s := by
        rw [hLq]; exact Nat.mul_le_mul_right _ hlt
      have hle' := hle
      rw [Nat.succ_mul] at hle'
      have hnext : uadd (k * s.resolution) s.resolution = (k + 1) * s.resolution := by
        rw [uadd_eq (by omega), Nat.succ_mul]
      rw [hnext]
      exact ih (k + 1) b (by omega) hlt hlb (by omega)
    · have hkeq : k = (s.sample_count - 1) / s.resolution := by omega
      have heq : k * s.resolution = lastCast s := by rw [hLq, hkeq]
      have hkr : s.resolution ≤ k * s.resolution := Nat.le_mul_of_pos_left _ hk
      have hnext : uadd (k * s.resolution) s.resolution =
          k * s.resolution + s.resolution - UINT := by
        unfold uadd
        rw [Nat.mod_eq_sub_mod (by omega)]
        exact Nat.mod_eq_of_lt (by omega)
      rw [hnext]
      cases fuel with
      | zero => omega
      | succ fuel =>
        unfold interpLoop
        have ht' : k * s.resolution + s.resolution - UINT < s.sample_count := by omega
        simp only [ht', if_true]
        rw [gapLoop_wrapped_outOfBounds s hwf _ (by omega) ht' (s.resolution + 1) 1 b hlb
          (le_refl 1) (by omega) (by omega)]

/-- The cast loop on `5 * 2^29 + 1` samples at resolution `5 * 2^29`: the
counter runs 0, `5 * 2^29`, wraps to `2^30`, and ends at `7 * 2^29`. -/
theorem wrap_castLoop (W : World) (s : ModelLaser) (hs : s.sample_count = 2684354561)
    (hr : s.resolution = 2684354560) (sc0 : Scan)
    (hl0 : sc0.samples.length = s.sample_count) :
    ∃ sc, castLoop W s 4 0 sc0 = .ok sc ∧ sc.samples.length = s.sample_count ∧
      sc.casts.map Cast.index = sc0.casts.map Cast.index ++ [0, 2684354560, 1073741824] := by
  obtain ⟨sc1, hl1, hc1, h1⟩ := castLoop_step W s 3 0 sc0 (by omega) hl0
  have e1 : uadd 0 s.resolution = 2684354560 := by
    rw [hr]; norm_num [uadd, UINT]
  rw [e1] at h1
  obtain ⟨sc2, hl2, hc2, h2⟩ := castLoop_step W s 2 2684354560 sc1 (by omega) hl1
  have e2 : uadd 2684354560 s.resolution = 1073741824 := by
    rw [hr]; norm_num [uadd, UINT]
  rw [e2] at h2
  obtain ⟨sc3, hl3, hc3, h3⟩ := castLoop_step W s 1 1073741824 sc2 (by omega) hl2
  have e3 : uadd 1073741824 s.resolution = 3758096384 := by
    rw [hr]; norm_num [uadd, UINT]
  rw [e3] at h3
  have h4 := castLoop_exit W s 0 3758096384 sc3 (by omega)
  refine ⟨sc3, by rw [h1, h2, h3, h4], hl3, ?_⟩
  rw [hc3, hc2, hc1]
  simp

/-- On that configuration `Update` fails by an access outside the buffer. -/
theorem wrap_Update (W : World) (s : ModelLaser) (hs : s.sample_count = 2684354561)
    (hr : s.resolution = 2684354560) : Update W 4 s = .error .outOfBounds := by
  obtain ⟨sc, hc, hlen, _⟩ := wrap_castLoop W s hs hr
    { samples := g_renew W.fresh s.samples s.sample_count, bearing := - s.fov / 2, casts := [] }
    (g_renew_length _ _ _)
  have hwf : s.wf := by
    unfold ModelLaser.wf
    rw [hs, hr]
    norm_num [UINT]
  have hq : (s.sample_count - 1) / s.resolution = 1 := by
    rw [hs, hr]
  have hw : ¬ noWrap s := by
    unfold noWrap lastCast
    rw [hq, hr]
    norm_num [UINT]
  have hi := interpLoop_wrapped_outOfBounds s hwf hw 4 1 sc.samples (le_refl 1)
    (by rw [hq]) hlen (by rw [hq]; omega)
  rw [Nat.one_mul] at hi
  have hres : s.resolution > 1 := by rw [hr]; omega
  unfold Update
  simp only [hc, hres, if_true, hi]

theorem Update_exWrap (W : World) : Update W 4 exWrap = .error .outOfBounds :=
  wrap_Update W exWrap rfl rfl

/-! ### The body of the inner interpolation loop -/

/-- The inner interpolation loop is its test, the guard, and one pass through
`gapBody` followed by the loop from the next counter value. -/
theorem gapLoop_succ (s : ModelLaser) (t fuel g : Nat) (buf : List stg_laser_sample_t) :
    gapLoop s t (fuel + 1) g buf =
      if g < s.resolution then
        if t ≥ s.sample_count then .ok buf
        else
          match gapBody s t g buf with
          | .error e => .error e
          | .ok b => gapLoop s t fuel (uadd g 1) b
      else .ok buf := by
  conv => lhs; unfold gapLoop
  unfold gapBody
  by_cases hg : g < s.resolution
  · by_cases ht : t ≥ s.sample_count
    · simp only [hg, ht, if_true]
    · simp only [hg, ht, if_true, if_false]
      cases buf[usub t s.resolution]? with
      | none => rfl
      | some src =>
        simp only []
        cases store buf (usub t g) (fun _ => src) with
        | error e => rfl
        | ok b1 =>
          simp only []
          cases b1[t]? with
          | none => rfl
          | some l =>
            cases b1[usub t s.resolution]? with
            | none => rfl
            | some r => rfl
  · simp only [hg, if_false]

/-- A pass through `gapBody` whose three indices lie inside the buffer stores
at `t - g` the reflectance of the sample at `t - resolution` and the
interpolated range, and nothing else. -/
theorem gapBody_ok (s : ModelLaser) (t g : Nat) (buf : List stg_laser_sample_t)
    (src l : stg_laser_sample_t) (hsrc : buf[usub t s.resolution]? = some src)
    (hl : buf[t]? = some l) (hi : usub t g < buf.length) (hne1 : t ≠ usub t g)
    (hne2 : usub t s.resolution ≠ usub t g) :
    ∃ b, gapBody s t g buf = .ok b ∧ b.length = buf.length ∧
      ∀ j, b[j]? = if j = usub t g then some
          { range := l.range - (g : ℚ) * (l.range - src.range) / (s.resolution : ℚ)
            reflectance := src.reflectance }
        else buf[j]? := by
  obtain ⟨b1, h1⟩ := store_isSome buf (usub t g) (fun _ => src) hi
  obtain ⟨hl1, x, _, hb1⟩ := store_eq_some h1
  have h1t : b1[t]? = some l := by rw [hb1 t, if_neg hne1, hl]
  have h1r : b1[usub t s.resolution]? = some src := by rw [hb1 _, if_neg hne2, hsrc]
  obtain ⟨b2, h2⟩ := store_isSome b1 (usub t g)
    (fun x => { x with range := l.range - (g : ℚ) * (l.range - src.range) / (s.resolution : ℚ) })
    (by rw [hl1]; exact hi)
  obtain ⟨hl2, y, hy, hb2⟩ := store_eq_some h2
  have hy2 : y = src := by
    rw [hb1 _, if_pos rfl] at hy
    exact (Option.some.inj hy).symm
  refine ⟨b2, ?_, by rw [hl2, hl1], ?_⟩
  · unfold gapBody
    simp only [hsrc, h1, h1t, h1r, h2]
  · intro j
    rw [hb2 j]
    by_cases hj : j = usub t g
    · simp only [hj, if_true, hy2]
    · simp only [hj, if_false]
      rw [hb1 j, if_neg hj]

/-- A pass through `gapBody` whose index `t - g` lies outside the buffer
fails. -/
theorem gapBody_outOfBounds (s : ModelLaser) (t g : Nat) (buf : List stg_laser_sample_t)
    (hi : buf.length ≤ usub t g) : gapBody s t g buf = .error .outOfBounds := by
  unfold gapBody
  cases buf[usub t s.resolution]? with
  | none => rfl
  | some src =>
    simp only []
    rw [store_eq_none _ hi]

/-- One iteration of the cast loop, with the sample it stores. -/
theorem castLoop_step_samples (W : World) (s : ModelLaser) (fuel t : Nat) (sc : Scan)
    (ht : t < s.sample_count) (hlen : sc.samples.length = s.sample_count) :
    ∃ sc', sc'.samples.length = s.sample_count ∧
      sc'.casts = sc.casts ++ [⟨t, sc.bearing, s.range_max⟩] ∧
      sc'.bearing = sc.bearing + sample_incr s ∧
      (∀ j, sc'.samples[j]? = if j = t then some
          { range := (W.Raytrace sc.bearing s.range_max).range
            reflectance := reflectanceOf W (W.Raytrace sc.bearing s.range_max) }
        else sc.samples[j]?) ∧
      castLoop W s (fuel + 1) t sc = castLoop W s fuel (uadd t s.resolution) sc' := by
  obtain ⟨b1, h1⟩ := store_isSome sc.samples t
    (fun x => { x with range := (W.Raytrace sc.bearing s.range_max).range })
    (by rw [hlen]; exact ht)
  obtain ⟨hl1, x, _, hb1⟩ := store_eq_some h1
  obtain ⟨b2, h2⟩ := store_isSome b1 t
    (fun x => { x with reflectance := reflectanceOf W (W.Raytrace sc.bearing s.range_max) })
    (by rw [hl1, hlen]; exact ht)
  obtain ⟨hl2, y, hy, hb2⟩ := store_eq_some h2
  have hy2 : y = { x with range := (W.Raytrace sc.bearing s.range_max).range } := by
    rw [hb1 _, if_pos rfl] at hy
    exact (Option.some.inj hy).symm
  refine ⟨{ samples := b2, bearing := sc.bearing + sample_incr s,
            casts := sc.casts ++ [⟨t, sc.bearing, s.range_max⟩] }, ?_, rfl, rfl, ?_, ?_⟩
  · show b2.length = s.sample_count
    rw [hl2, hl1, hlen]
  · intro j
    show b2[j]? = _
    rw [hb2 j]
    by_cases hj : j = t
    · simp only [hj, if_true, hy2]
    · simp only [hj, if_false]
      rw [hb1 j, if_neg hj]
  · conv => lhs; unfold castLoop
    simp only [ht, if_true, h1, h2]

/-! ### A wrapping configuration with a cast behind the last boundary -/

/-- The cast loop on `2^31 + 4` samples at resolution `2^31 + 1`: the counter
runs 0, `2^31 + 1`, wraps to 2, runs on to `2^31 + 3`, wraps to 4, and ends
at `2^31 + 5`. -/
theorem sweep_castLoop (W : World) (s : ModelLaser) (hs : s.sample_count = 2147483652)
    (hr : s.resolution = 2147483649) :
    ∃ sc, castLoop W s 6 0
        { samples := g_renew W.fresh s.samples s.sample_count
          bearing := - s.fov / 2
          casts := [] } = .ok sc ∧
      sc.samples.length = s.sample_count ∧
      sc.casts.map Cast.index = [0, 2147483649, 2, 2147483651, 4] ∧
      sc.samples[0]? = some (castSample W s 0) ∧
      sc.samples[2147483649]? = some (castSample W s 1) ∧
      sc.samples[2147483651]? = some (castSample W s 3) := by
  have hB0 : - s.fov / 2 = bearingAt s 0 := by simp [bearingAt]
  obtain ⟨sc1, hl1, hc1, hb1, hm1, h1⟩ := castLoop_step_samples W s 5 0
    { samples := g_renew W.fresh s.samples s.sample_count, bearing := - s.fov / 2, casts := [] }
    (by omega) (g_renew_length _ _ _)
  have e1 : uadd 0 s.resolution = 2147483649 := by
    rw [hr]; norm_num [uadd, UINT]
  rw [e1] at h1
  obtain ⟨sc2, hl2, hc2, hb2, hm2, h2⟩ := castLoop_step_samples W s 4 2147483649 sc1
    (by omega) hl1
  have e2 : uadd 2147483649 s.resolution = 2 := by
    rw [hr]; norm_num [uadd, UINT]
  rw [e2] at h2
  obtain ⟨sc3, hl3, hc3, hb3, hm3, h3⟩ := castLoop_step_samples W s 3 2 sc2 (by omega) hl2
  have e3 : uadd 2 s.resolution = 2147483651 := by
    rw [hr]; norm_num [uadd, UINT]
  rw [e3] at h3
  obtain ⟨sc4, hl4, hc4, hb4, hm4, h4⟩ := castLoop_step_samples W s 2 2147483651 sc3
    (by omega) hl3
  have e4 : uadd 2147483651 s.resolution = 4 := by
    rw [hr]; norm_num [uadd, UINT]
  rw [e4] at h4
  obtain ⟨sc5, hl5, hc5, hb5, hm5, h5⟩ := castLoop_step_samples W s 1 4 sc4 (by omega) hl4
  have e5 : uadd 4 s.resolution = 2147483653 := by
    rw [hr]; norm_num [uadd, UINT]
  rw [e5] at h5
  have h6 := castLoop_exit W s 0 2147483653 sc5 (by omega)
  have hbe1 : sc1.bearing = bearingAt s 1 := by
    rw [hb1]; show - s.fov / 2 + sample_incr s = _
    rw [hB0, ← bearingAt_succ]
  have hbe2 : sc2.bearing = bearingAt s 2 := by rw [hb2, hbe1, ← bearingAt_succ]
  have hbe3 : sc3.bearing = bearingAt s 3 := by rw [hb3, hbe2, ← bearingAt_succ]
  refine ⟨sc5, by rw [h1, h2, h3, h4, h5, h6], hl5, ?_, ?_, ?_, ?_⟩
  · rw [hc5, hc4, hc3, hc2, hc1]
    simp
  · rw [hm5, if_neg (by omega), hm4, if_neg (by omega), hm3, if_neg (by omega), hm2,
      if_neg (by omega), hm1, if_pos rfl]
    show some _ = some (castSample W s 0)
    rw [hB0]
    rfl
  · rw [hm5, if_neg (by omega), hm4, if_neg (by omega), hm3, if_neg (by omega), hm2,
      if_pos rfl, hbe1]
    rfl
  · rw [hm5, if_neg (by omega), hm4, if_pos rfl, hbe3]
    rfl

theorem sweep_wf (s : ModelLaser) (hs : s.sample_count = 2147483652)
    (hr : s.resolution = 2147483649) : s.wf ∧ ¬ noWrap s := by
  have hq : (s.sample_count - 1) / s.resolution = 1 := by rw [hs, hr]
  refine ⟨?_, ?_⟩
  · unfold ModelLaser.wf
    rw [hs, hr]
    norm_num [UINT]
  · unfold noWrap lastCast
    rw [hq, hr]
    norm_num [UINT]

/-- On that configuration `Update` fails by an access outside the buffer. -/
theorem sweep_Update (W : World) (s : ModelLaser) (hs : s.sample_count = 2147483652)
    (hr : s.resolution = 2147483649) : Update W 6 s = .error .outOfBounds := by
  obtain ⟨sc, hc, hlen, _⟩ := sweep_castLoop W s hs hr
  obtain ⟨hwf, hw⟩ := sweep_wf s hs hr
  have hq : (s.sample_count - 1) / s.resolution = 1 := by rw [hs, hr]
  have hi := interpLoop_wrapped_outOfBounds s hwf hw 6 1 sc.samples (le_refl 1)
    (by rw [hq]) hlen (by rw [hq]; omega)
  rw [Nat.one_mul] at hi
  have hres : s.resolution > 1 := by rw [hr]; omega
  unfold Update
  simp only [hc, hres, if_true, hi]

/-- The interpolation pass on that configuration.  The pass at the first
boundary fills the gap below it.  The counter then wraps to 2, and the inner
loop at this boundary stores to index 1, stores to index 0, and at `g = 3`
fails by a store to index `2^32 - 1`. -/
theorem sweep_passes (W : World) (s : ModelLaser) (hs : s.sample_count = 2147483652)
    (hr : s.resolution = 2147483649) (B0 : List stg_laser_sample_t)
    (hlen : B0.length = s.sample_count)
    (h0 : B0[0]? = some (castSample W s 0))
    (h1 : B0[2147483649]? = some (castSample W s 1)) :
    ∃ b1 b2 b3, gapLoop s s.resolution (s.resolution + 1) 1 B0 = .ok b1 ∧
      b1[0]? = some (castSample W s 0) ∧
      b1[2]? = some (interpSample (castSample W s) s.resolution 2) ∧
      gapBody s 2 1 b1 = .ok b2 ∧
      gapBody s 2 2 b2 = .ok b3 ∧
      b3[0]? = some
        { range := (interpSample (castSample W s) s.resolution 2).range -
            2 * ((interpSample (castSample W s) s.resolution 2).range -
              (castSample W s 1).range) / (s.resolution : ℚ)
          reflectance := (castSample W s 1).reflectance } ∧
      gapBody s 2 3 b3 = .error .outOfBounds := by
  obtain ⟨hwf, _⟩ := sweep_wf s hs hr
  have ht : 1 * s.resolution < s.sample_count := by omega
  obtain ⟨b1, hb1⟩ := gapLoop_total s hwf 1 (le_refl 1) ht s.resolution 1 B0 hlen (le_refl 1)
    (by omega)
  have hB0 : ∀ j, j * s.resolution < s.sample_count →
      B0[j * s.resolution]? = some (castSample W s j) := by
    intro j hj
    rw [hr, hs] at hj
    have hj2 : j = 0 ∨ j = 1 := by omega
    rcases hj2 with rfl | rfl
    · rw [Nat.zero_mul]; exact h0
    · rw [Nat.one_mul, hr]; exact h1
  have hinv0 : GapInv (castSample W s) s B0 1 1 B0 := by
    refine ⟨hlen, fun i hi => ?_⟩
    rw [if_neg (by omega)]
  obtain ⟨hl1, hi1⟩ := gapLoop_spec (castSample W s) s B0 hwf hB0 1 (le_refl 1) ht
    (s.resolution + 1) 1 B0 b1 (le_refl 1) (by omega) hinv0 hb1
  rw [Nat.one_mul] at hb1
  have hnd : ¬ s.resolution ∣ 2 := by
    intro h
    have := Nat.le_of_dvd (by omega) h
    omega
  have hb10 : b1[0]? = some (castSample W s 0) := by
    rw [hi1 0 (by omega), if_neg (fun h => h.1 (Nat.dvd_zero _)), h0]
  have hb12 : b1[2]? = some (interpSample (castSample W s) s.resolution 2) := by
    rw [hi1 2 (by omega), if_pos ⟨hnd, Or.inr (by omega)⟩]
  have hb1r : b1[2147483649]? = some (castSample W s 1) := by
    rw [hi1 2147483649 (by omega), if_neg (fun h => h.1 (by rw [hr])), h1]
  -- the wrapped boundary
  have er : usub 2 s.resolution = 2147483649 := by
    rw [hr]; norm_num [usub, UINT]
  have eg1 : usub 2 1 = 1 := by norm_num [usub, UINT]
  have eg2 : usub 2 2 = 0 := by norm_num [usub, UINT]
  have eg3 : usub 2 3 = 4294967295 := by norm_num [usub, UINT]
  obtain ⟨b2, hb2, hl2, hm2⟩ := gapBody_ok s 2 1 b1 (castSample W s 1)
    (interpSample (castSample W s) s.resolution 2) (by rw [er]; exact hb1r) hb12
    (by rw [eg1, hl1]; omega) (by rw [eg1]; omega) (by rw [er, eg1]; omega)
  rw [eg1] at hm2
  obtain ⟨b3, hb3, hl3, hm3⟩ := gapBody_ok s 2 2 b2 (castSample W s 1)
    (interpSample (castSample W s) s.resolution 2)
    (by rw [er, hm2, if_neg (by omega)]; exact hb1r)
    (by rw [hm2, if_neg (by omega)]; exact hb12)
    (by rw [eg2, hl2, hl1]; omega) (by rw [eg2]; omega) (by rw [er, eg2]; omega)
  rw [eg2] at hm3
  refine ⟨b1, b2, b3, hb1, hb10, hb12, hb2, hb3, ?_, ?_⟩
  · rw [hm3 0, if_pos rfl]
    simp only [Nat.cast_ofNat]
  · exact gapBody_outOfBounds s 2 3 b3 (by rw [eg3, hl3, hl2, hl1]; omega)

/-! ### The claims that a wrapping counter breaks -/

/-- The casts of `exEdgeWorld` on a scan of `2^31 + 4` samples over a field
of view of four radians: the first ray, at the heading -2, meets the bright
obstacle; the second and the fourth meet the wall. -/
theorem sweep_edge (s : ModelLaser) (hs : s.sample_count = 2147483652) (hf : s.fov = 4) :
    castSample exEdgeWorld s 0 = ⟨1, 1⟩ ∧ castSample exEdgeWorld s 1 = ⟨5, 0⟩ ∧
    castSample exEdgeWorld s 3 = ⟨5, 0⟩ := by
  have hden : sample_incr_den s = 2147483651 := by
    unfold sample_incr_den
    rw [hs]; norm_num [usub, UINT]
  refine ⟨?_, ?_, ?_⟩ <;>
    simp [castSample, bearingAt, sample_incr, hden, hf, exEdgeWorld, reflectanceOf] <;>
    norm_num

theorem Update_exSweep (W : World) : Update W 6 exSweep = .error .outOfBounds :=
  sweep_Update W exSweep rfl rfl

/-- C1 (code bug): when the loop counter wraps, the interpolation pass
overwrites a cast sample.  With `2^31 + 4` samples at resolution `2^31 + 1`
(`exSweep`), index 0 is a multiple of the resolution and is cast.  The
interpolation pass fills the gap below the first boundary and steps its
counter from `2^31 + 1` to `2^32 + 2`, which wraps to 2.  At this boundary
the inner loop stores to index 1 at `g = 1`, stores to index `2 - 2 = 0` at
`g = 2`, and fails at `g = 3` by a store to index `2^32 - 1`.  After the pass
at `g = 2`, index 0 holds the reflectance of the cast made for index
`2^31 + 1` and an interpolated range, not the result of its own cast; in
`exEdgeWorld` the cast for index 0 stored `(1, 1)` and the pass leaves
reflectance 0 there.  Whenever the two casts differ in reflectance, index 0
is changed by the pass.  No run of `Update` completes on this configuration. -/
theorem C1_wrapped_pass_overwrites_cast :
    exSweep.wf ∧ 2 ≤ exSweep.sample_count ∧ 1 ≤ exSweep.resolution ∧
    exSweep.resolution ∣ 0 ∧
    uadd exSweep.resolution exSweep.resolution = 2 ∧ 2 < exSweep.sample_count ∧
    usub 2 2 = 0 ∧ usub 2 3 = 4294967295 ∧
    (∀ W : World, ∃ sc b1 b2 b3,
      castLoop W exSweep 6 0
        { samples := g_renew W.fresh exSweep.samples exSweep.sample_count
          bearing := - exSweep.fov / 2
          casts := [] } = .ok sc ∧
      gapLoop exSweep exSweep.resolution (exSweep.resolution + 1) 1 sc.samples = .ok b1 ∧
      b1[0]? = some (castSample W exSweep 0) ∧
      b1[2]? = some (interpSample (castSample W exSweep) exSweep.resolution 2) ∧
      gapBody exSweep 2 1 b1 = .ok b2 ∧
      gapBody exSweep 2 2 b2 = .ok b3 ∧
      b3[0]? = some
        { range := (interpSample (castSample W exSweep) exSweep.resolution 2).range -
            2 * ((interpSample (castSample W exSweep) exSweep.resolution 2).range -
              (castSample W exSweep 1).range) / (exSweep.resolution : ℚ)
          reflectance := (castSample W exSweep 1).reflectance } ∧
      ((castSample W exSweep 1).reflectance ≠ (castSample W exSweep 0).reflectance →
        b3[0]? ≠ b1[0]?) ∧
      gapBody exSweep 2 3 b3 = .error .outOfBounds ∧
      Update W 6 exSweep = .error .outOfBounds) ∧
    castSample exEdgeWorld exSweep 0 = ⟨1, 1⟩ ∧
    castSample exEdgeWorld exSweep 1 = ⟨5, 0⟩ := by
  refine ⟨(sweep_wf exSweep rfl rfl).1, by decide, by decide, Nat.dvd_zero _, ?_, by decide,
    ?_, ?_, ?_, (sweep_edge exSweep rfl rfl).1, (sweep_edge exSweep rfl rfl).2.1⟩
  · show uadd 2147483649 2147483649 = 2
    norm_num [uadd, UINT]
  · norm_num [usub, UINT]
  · norm_num [usub, UINT]
  · intro W
    obtain ⟨sc, hc, hlen, _, h0, h1, _⟩ := sweep_castLoop W exSweep rfl rfl
    obtain ⟨b1, b2, b3, hb1, hb10, hb12, hb2, hb3, hb30, hb4⟩ :=
      sweep_passes W exSweep rfl rfl sc.samples hlen h0 h1
    refine ⟨sc, b1, b2, b3, hc, hb1, hb10, hb12, hb2, hb3, hb30, ?_, hb4, Update_exSweep W⟩
    intro hne heq
    rw [hb30, hb10] at heq
    have h := congrArg stg_laser_sample_t.reflectance (Option.some.inj heq)
    exact hne h

/-- The casts of `Update` on `5 * 2^29 + 1` samples at resolution `5 * 2^29`. -/
theorem wrap_casts (W : World) (s : ModelLaser) (hs : s.sample_count = 2684354561)
    (hr : s.resolution = 2684354560) :
    ∃ sc, castLoop W s 4 0
        { samples := g_renew W.fresh s.samples s.sample_count
          bearing := - s.fov / 2
          casts := [] } = .ok sc ∧
      sc.casts.length = 3 ∧
      sc.casts.map Cast.index = [0, 2684354560, 1073741824] := by
  obtain ⟨sc, hc, _, hm⟩ := wrap_castLoop W s hs hr
    { samples := g_renew W.fresh s.samples s.sample_count, bearing := - s.fov / 2, casts := [] }
    (g_renew_length _ _ _)
  have hm2 : sc.casts.map Cast.index = [0, 2684354560, 1073741824] := by
    rw [hm]; rfl
  refine ⟨sc, hc, ?_, hm2⟩
  have := congrArg List.length hm2
  simpa using this

/-- C6 (code bug): when the loop counter wraps, the cast loop casts an index
that is no multiple of the resolution.  With `5 * 2^29 + 1` samples at
resolution `5 * 2^29` (`exWrap`), `ceil(sample_count / resolution)` is 2 and
the multiples of the resolution below `sample_count` are 0 and `5 * 2^29`.
The cast loop casts them, steps its counter to `10 * 2^29`, which wraps to
`2^30`, and casts that index too: three casts, the third for an index that
is no multiple of the resolution.  No run of `Update` completes on this
configuration. -/
theorem C6_wrapped_counter_extra_cast :
    exWrap.wf ∧ 2 ≤ exWrap.sample_count ∧ 1 ≤ exWrap.resolution ∧
    (exWrap.sample_count + exWrap.resolution - 1) / exWrap.resolution = 2 ∧
    uadd 2684354560 exWrap.resolution = 1073741824 ∧
    1073741824 < exWrap.sample_count ∧ ¬ exWrap.resolution ∣ 1073741824 ∧
    ∀ W : World,
      (∃ sc, castLoop W exWrap 4 0
          { samples := g_renew W.fresh exWrap.samples exWrap.sample_count
            bearing := - exWrap.fov / 2
            casts := [] } = .ok sc ∧
        sc.casts.length = 3 ∧
        sc.casts.map Cast.index = [0, 2684354560, 1073741824]) ∧
      Update W 4 exWrap = .error .outOfBounds := by
  refine ⟨by decide, by decide, by decide, by decide, ?_, by decide, by decide, ?_⟩
  · show uadd 2684354560 2684354560 = 1073741824
    norm_num [uadd, UINT]
  · intro W
    exact ⟨wrap_casts W exWrap rfl rfl, Update_exWrap W⟩

/-- C11 (code bug): the resolution field is unsigned, so a negative value
read from the worldfile is stored as a large positive one and escapes the
clamp `if( resolution < 1 )`.  The value -1 is stored as 4294967295, not as
1; the value 0 is stored as 1 and the value 5 as 5. -/
theorem C11_negative_resolution_not_clamped :
    (Load (exResolution (-1)) ModelLaser.new).resolution = 4294967295 ∧
    (Load (exResolution (-1)) ModelLaser.new).resolution ≠ 1 ∧
    (Load (exResolution 0) ModelLaser.new).resolution = 1 ∧
    (Load (exResolution 5) ModelLaser.new).resolution = 5 := by
  refine ⟨?_, ?_, ?_, ?_⟩ <;>
    simp [Load, exResolution, ReadInt, toUInt, UINT]

/-- C12: for every candidate `hit`, every `finder` and every third argument,
`laser_raytrace_match` returns true exactly when `hit` is not the finder and
`hit`'s `laser_return` is strictly positive; so it rejects the finder itself
and every model whose `laser_return` is not positive. -/
theorem C12_filter (hit finder : Model) (dummy : Option Nat) :
    (laser_raytrace_match hit finder dummy = true ↔
      (hit.id ≠ finder.id ∧ 0 < hit.laser_return)) ∧
    laser_raytrace_match finder finder dummy = false ∧
    (hit.laser_return ≤ 0 → laser_raytrace_match hit finder dummy = false) := by
  refine ⟨?_, ?_, ?_⟩
  · simp [laser_raytrace_match]
  · simp [laser_raytrace_match]
  · intro h
    simp only [laser_raytrace_match, Bool.and_eq_false_iff, decide_eq_false_iff_not]
    exact Or.inr (by omega)

/-- Witness of C12: a visible model is accepted, the finder and a transparent
model are rejected. -/
theorem C12_witness :
    laser_raytrace_match exVisible exFinder none = true ∧
    laser_raytrace_match exFinder exFinder none = false ∧
    exTransparent.laser_return ≤ 0 ∧
    laser_raytrace_match exTransparent exFinder none = false :=
  ⟨(C12_filter exVisible exFinder none).1.2 ⟨by decide, by decide⟩,
    (C12_filter exVisible exFinder none).2.1,
    by decide,
    (C12_filter exTransparent exFinder none).2.2 (by decide)⟩

/-- C13: for every configuration with `sample_count ≥ 2` and `resolution ≥ 1`,
every ray caster (a function of the ray, so deterministic) and every initial
buffer, a second `Update` on the model left by a completed first one, in the
same world and whatever the allocator hands out, leaves the same sample
buffer and dirty flag, indeed the same model and the same record of casts.
Both runs complete whenever the loop counter does not wrap. -/
theorem C13_Update_idempotent (W : World) (f2 : Nat → stg_laser_sample_t) (s : ModelLaser)
    (hwf : s.wf) (hsc : 2 ≤ s.sample_count) (hr : 1 ≤ s.resolution) :
    (noWrap s → ∃ u u2, Update W (s.sample_count + 1) s = .ok u ∧
      Update { W with fresh := f2 } (s.sample_count + 1) u.model = .ok u2) ∧
    ∀ fuel fuel2 u u2, Update W fuel s = .ok u →
      Update { W with fresh := f2 } fuel2 u.model = .ok u2 →
      u2.model.samples = u.model.samples ∧ u2.model.data_dirty = u.model.data_dirty ∧
      u2 = u := by
  have hpost : ∀ fuel fuel2 u u2, Update W fuel s = .ok u →
      Update { W with fresh := f2 } fuel2 u.model = .ok u2 → u2 = u :=
    fun fuel fuel2 u u2 h1 h2 =>
      Update_again W f2 s hwf hr (by omega) fuel fuel2 u u2 h1 h2
  refine ⟨?_, ?_⟩
  · intro hnw
    obtain ⟨u, hu⟩ := Update_total W s hwf hr hnw
    obtain ⟨_, hm, _, _⟩ := Update_post W s hwf hr (by omega) _ u hu
    obtain ⟨⟨d, X, n, rmin, rmax, fv, res, itv⟩, c⟩ := u
    simp only [ModelLaser.mk.injEq] at hm
    obtain ⟨rfl, -, rfl, rfl, rfl, rfl, rfl, rfl⟩ := hm
    obtain ⟨u2, hu2⟩ := Update_total { W with fresh := f2 }
      { s with samples := X, data_dirty := true } hwf hr hnw
    exact ⟨_, u2, hu, hu2⟩
  · intro fuel fuel2 u u2 h1 h2
    have := hpost fuel fuel2 u u2 h1 h2
    subst this
    exact ⟨rfl, rfl, rfl⟩

/-- Witness of C13: scanning five samples at resolution two twice. -/
theorem C13_witness :
    ex5by2.wf ∧ 2 ≤ ex5by2.sample_count ∧ 1 ≤ ex5by2.resolution ∧ noWrap ex5by2 ∧
    ∃ u u2, Update exWorld (ex5by2.sample_count + 1) ex5by2 = .ok u ∧
      Update { exWorld with fresh := fun _ => ⟨0, 0⟩ } (ex5by2.sample_count + 1) u.model =
        .ok u2 ∧
      u2.model.samples = u.model.samples ∧ u2.model.data_dirty = u.model.data_dirty ∧ u2 = u :=
  have h := C13_Update_idempotent exWorld (fun _ => ⟨0, 0⟩) ex5by2
    (by decide) (by decide) (by decide)
  match h.1 (by decide) with
  | ⟨u, u2, hu, hu2⟩ =>
    ⟨by decide, by decide, by decide, by decide, u, u2, hu, hu2, h.2 _ _ u u2 hu hu2⟩

/-- C14: for every `sample_count ≥ 2` with `resolution = 1` and a ray caster
that misses on every call (it returns the range `range_max` and no model),
`Update` completes and leaves a buffer of exactly `sample_count` samples,
every one with range `range_max` and reflectance 0. -/
theorem C14_empty_world (W : World) (s : ModelLaser) (hwf : s.wf)
    (hsc : 2 ≤ s.sample_count) (hres : s.resolution = 1)
    (hmiss : ∀ b, W.Raytrace b s.range_max = { range := s.range_max, mod := none }) :
    (∃ u, Update W (s.sample_count + 1) s = .ok u) ∧
    ∀ fuel u, Update W fuel s = .ok u →
      u.model.samples.length = s.sample_count ∧
      u.model.samples =
        List.replicate s.sample_count { range := s.range_max, reflectance := 0 } := by
  have hr : 1 ≤ s.resolution := by omega
  refine ⟨Update_total W s hwf hr (noWrap_of_resolution_one hwf hres), ?_⟩
  intro fuel u h
  obtain ⟨_, _, hlen, hbuf⟩ := Update_post W s hwf hr (by omega) fuel u h
  refine ⟨hlen, ?_⟩
  apply List.ext_getElem?
  intro i
  by_cases hi : i < s.sample_count
  · have hd : s.resolution ∣ i := by rw [hres]; exact Nat.one_dvd _
    rw [hbuf i hi, List.getElem?_replicate, if_pos hi]
    unfold scanAt
    rw [if_pos hd]
    simp only [castSample, hmiss, reflectanceOf]
  · rw [List.getElem?_eq_none (by omega), List.getElem?_eq_none (by simp; omega)]

/-- Witness of C14: five samples over a field of view of pi in an empty world. -/
theorem C14_witness :
    ex5by1.wf ∧ 2 ≤ ex5by1.sample_count ∧ ex5by1.resolution = 1 ∧ ex5by1.fov = DEFAULT_FOV ∧
    ∃ u, Update exEmptyWorld (ex5by1.sample_count + 1) ex5by1 = .ok u ∧
      u.model.samples.length = ex5by1.sample_count ∧
      u.model.samples =
        List.replicate ex5by1.sample_count { range := ex5by1.range_max, reflectance := 0 } :=
  have h := C14_empty_world exEmptyWorld ex5by1 (by decide) (by decide) rfl (fun _ => rfl)
  match h.1 with
  | ⟨u, hu⟩ => ⟨by decide, by decide, rfl, rfl, u, hu, h.2 _ u hu⟩

/-- C15 (code bug): `Update` stores the range of a cast as it is returned and
never raises it to `range_min`.  With a minimum range of one metre and an
obstacle half a metre away, both samples of the scan hold the range 1/2. -/
theorem C15_range_min_not_enforced :
    exMinRange.range_min = 1 ∧
    (∃ u, Update exNearWorld 3 exMinRange = .ok u ∧
      u.model.samples = [⟨1 / 2, 0⟩, ⟨1 / 2, 0⟩] ∧
      ∀ x, x ∈ u.model.samples → x.range < exMinRange.range_min) := by
  refine ⟨rfl, _, Update_exMinRange, rfl, ?_⟩
  intro x hx
  simp only [List.mem_cons, List.mem_singleton, List.not_mem_nil, or_false, or_self] at hx
  rw [hx]
  norm_num [exMinRange]

/-- The samples behind the last boundary of a completed scan.  Let
`L = resolution * floor((sample_count - 1) / resolution)`
(`lastCast`), with `sample_count ≥ 2`, `resolution ≥ 1` and a buffer already
of length `sample_count`.  In a completed `Update`, `L` is the last index
cast; every index `i ≤ L` holds a value computed in this scan (its cast, or
the interpolation of its two neighbouring casts), and every index `i` with
`L < i < sample_count` holds what it held before the call.  So every entry
is computed afresh exactly when `resolution` divides `sample_count - 1`.
`Update` completes whenever the loop counter does not wrap. -/
theorem Update_trailing_samples_kept (W : World) (s : ModelLaser) (hwf : s.wf)
    (hsc : 2 ≤ s.sample_count) (hr : 1 ≤ s.resolution)
    (hlen : s.samples.length = s.sample_count) :
    lastCast s = s.resolution * ((s.sample_count - 1) / s.resolution) ∧
    (noWrap s → ∃ u, Update W (s.sample_count + 1) s = .ok u) ∧
    (∀ fuel u, Update W fuel s = .ok u →
      (∃ c, c ∈ u.casts ∧ c.index = lastCast s) ∧
      (∀ c, c ∈ u.casts → c.index ≤ lastCast s) ∧
      (∀ i, i ≤ lastCast s → u.model.samples[i]? = some
        (if s.resolution ∣ i then castSample W s (i / s.resolution)
         else interpSample (castSample W s) s.resolution i)) ∧
      (∀ i, lastCast s < i → i < s.sample_count → u.model.samples[i]? = s.samples[i]?)) ∧
    ((∀ i, i < s.sample_count → i ≤ lastCast s) ↔ s.resolution ∣ (s.sample_count - 1)) := by
  have hsc1 : 1 ≤ s.sample_count := by omega
  have hL := lastCast_lt hsc1
  refine ⟨rfl, Update_total W s hwf hr, ?_, lastCast_eq_iff s hsc1⟩
  intro fuel u h
  obtain ⟨hcasts, _, _, hbuf⟩ := Update_post W s hwf hr hsc1 fuel u h
  refine ⟨?_, ?_, ?_, ?_⟩
  · refine ⟨⟨((s.sample_count - 1) / s.resolution) * s.resolution,
      bearingAt s ((s.sample_count - 1) / s.resolution), s.range_max⟩, ?_, ?_⟩
    · rw [hcasts]
      refine mem_castLog.2 ⟨(s.sample_count - 1) / s.resolution, ?_, rfl⟩
      apply (lt_numCasts_iff hr _).2
      have : ((s.sample_count - 1) / s.resolution) * s.resolution = lastCast s := by
        unfold lastCast; exact Nat.mul_comm _ _
      omega
    · show ((s.sample_count - 1) / s.resolution) * s.resolution = lastCast s
      unfold lastCast; exact Nat.mul_comm _ _
  · intro c hc
    rw [hcasts] at hc
    obtain ⟨k, hk, rfl⟩ := mem_castLog.1 hc
    exact mul_le_lastCast hr ((lt_numCasts_iff hr k).1 hk)
  · intro i hi
    rw [hbuf i (by omega), scanAt_written W s hsc1 i hi]
  · intro i hLi hi
    rw [hbuf i hi, scanAt_behind W s hr i hLi hi hlen]

/-- Example: four samples at resolution two over a buffer left by an
earlier scan; the last cast is index 2 and index 3 keeps its old value. -/
theorem trailing_samples_kept_ex4by2 :
    (ex4by2 ⟨5, 1⟩).wf ∧ 2 ≤ (ex4by2 ⟨5, 1⟩).sample_count ∧ 1 ≤ (ex4by2 ⟨5, 1⟩).resolution ∧
    (ex4by2 ⟨5, 1⟩).samples.length = (ex4by2 ⟨5, 1⟩).sample_count ∧
    noWrap (ex4by2 ⟨5, 1⟩) ∧ lastCast (ex4by2 ⟨5, 1⟩) = 2 ∧
    (∃ u, Update exWorld ((ex4by2 ⟨5, 1⟩).sample_count + 1) (ex4by2 ⟨5, 1⟩) = .ok u) ∧
    (ex4by2_scan ⟨5, 1⟩).model.samples[3]? = (ex4by2 ⟨5, 1⟩).samples[3]? ∧
    ¬ (ex4by2 ⟨5, 1⟩).resolution ∣ ((ex4by2 ⟨5, 1⟩).sample_count - 1) :=
  have h := Update_trailing_samples_kept exWorld (ex4by2 ⟨5, 1⟩)
    (by decide) (by decide) (by decide) rfl
  ⟨by decide, by decide, by decide, rfl, by decide, by decide, h.2.1 (by decide),
    (h.2.2.1 5 (ex4by2_scan ⟨5, 1⟩) Update_ex4by2_five).2.2.2 3 (by decide) (by decide),
    fun hd => absurd (h.2.2.2.2 hd 3 (by decide)) (by decide)⟩

/-- The buffer of `exSweep` before the scan: `2^31 + 4` samples `(9, 0)`. -/
theorem exSweep_samples :
    exSweep.samples.length = exSweep.sample_count ∧
    exSweep.samples[2147483651]? = some ⟨9, 0⟩ := by
  have h : exSweep.samples = List.replicate 2147483652 ⟨9, 0⟩ := rfl
  rw [h, List.length_replicate, List.getElem?_replicate]
  exact ⟨rfl, if_pos (by omega)⟩

/-- C16 (code bug): when the loop counter wraps, the cast loop casts and
writes an index behind `L`.  With `2^31 + 4` samples at resolution `2^31 + 1`
over a buffer of that length (`exSweep`), `L = 2^31 + 1`.  The cast loop
casts 0 and `2^31 + 1`, steps its counter to `2^32 + 2`, which wraps to 2,
casts 2 and then `2^31 + 3`, an index between `L` and `sample_count`, wraps
again and casts 4.  Index `2^31 + 3` held `(9, 0)` before the call and holds
the result of the fourth cast after the cast loop, in `exEdgeWorld` the
sample `(5, 0)`.  No run of `Update` completes on this configuration. -/
theorem C16_wrapped_cast_behind_last :
    exSweep.wf ∧ 2 ≤ exSweep.sample_count ∧ 1 ≤ exSweep.resolution ∧
    exSweep.samples.length = exSweep.sample_count ∧
    lastCast exSweep = 2147483649 ∧
    uadd 2147483649 exSweep.resolution = 2 ∧ uadd 2 exSweep.resolution = 2147483651 ∧
    lastCast exSweep < 2147483651 ∧ 2147483651 < exSweep.sample_count ∧
    exSweep.samples[2147483651]? = some ⟨9, 0⟩ ∧
    (∀ W : World,
      (∃ sc, castLoop W exSweep 6 0
          { samples := g_renew W.fresh exSweep.samples exSweep.sample_count
            bearing := - exSweep.fov / 2
            casts := [] } = .ok sc ∧
        sc.casts.map Cast.index = [0, 2147483649, 2, 2147483651, 4] ∧
        sc.samples[2147483651]? = some (castSample W exSweep 3)) ∧
      Update W 6 exSweep = .error .outOfBounds) ∧
    castSample exEdgeWorld exSweep 3 = ⟨5, 0⟩ := by
  refine ⟨(sweep_wf exSweep rfl rfl).1, by decide, by decide, exSweep_samples.1, by decide,
    ?_, ?_, by decide, by decide, exSweep_samples.2, ?_, (sweep_edge exSweep rfl rfl).2.2⟩
  · show uadd 2147483649 2147483649 = 2
    norm_num [uadd, UINT]
  · show uadd 2 2147483649 = 2147483651
    norm_num [uadd, UINT]
  · intro W
    obtain ⟨sc, hc, _, hm, _, _, h3⟩ := sweep_castLoop W exSweep rfl rfl
    exact ⟨⟨sc, hc, hm, h3⟩, sweep_Update W exSweep rfl rfl⟩

/-- C17: if every cast returns a range between 0 and `range_max`, then every
sample that a completed `Update` writes (every index up to the last cast,
with `resolution ≥ 1` and `sample_count ≥ 2`) has a range between 0 and
`range_max` and reflectance 0 or 1, and the range of an interpolated sample
lies between the ranges of the two boundary samples of its gap.  `Update`
completes whenever the loop counter does not wrap. -/
theorem C17_written_samples_bounded (W : World) (s : ModelLaser) (hwf : s.wf)
    (hsc : 2 ≤ s.sample_count) (hr : 1 ≤ s.resolution)
    (hrange : ∀ b, 0 ≤ (W.Raytrace b s.range_max).range ∧
      (W.Raytrace b s.range_max).range ≤ s.range_max) :
    (noWrap s → ∃ u, Update W (s.sample_count + 1) s = .ok u) ∧
    ∀ fuel u, Update W fuel s = .ok u →
      ∀ i, i ≤ lastCast s →
        ∃ x, u.model.samples[i]? = some x ∧
          0 ≤ x.range ∧ x.range ≤ s.range_max ∧
          (x.reflectance = 0 ∨ x.reflectance = 1) ∧
          (¬ s.resolution ∣ i →
            ∃ a b, u.model.samples[i / s.resolution * s.resolution]? = some a ∧
              u.model.samples[(i / s.resolution + 1) * s.resolution]? = some b ∧
              min a.range b.range ≤ x.range ∧ x.range ≤ max a.range b.range) := by
  have hsc1 : 1 ≤ s.sample_count := by omega
  have hL := lastCast_lt hsc1
  refine ⟨Update_total W s hwf hr, ?_⟩
  intro fuel u h i hi
  obtain ⟨_, _, _, hbuf⟩ := Update_post W s hwf hr hsc1 fuel u h
  have hcast0 : ∀ k, 0 ≤ (castSample W s k).range := fun k => (hrange _).1
  have hcast1 : ∀ k, (castSample W s k).range ≤ s.range_max := fun k => (hrange _).2
  have hcastr : ∀ k, (castSample W s k).reflectance = 0 ∨ (castSample W s k).reflectance = 1 :=
    fun k => reflectanceOf_cases W _
  by_cases hd : s.resolution ∣ i
  · refine ⟨castSample W s (i / s.resolution), ?_, hcast0 _, hcast1 _, hcastr _, ?_⟩
    · rw [hbuf i (by omega), scanAt_written W s hsc1 i hi, if_pos hd]
    · intro hnd; exact absurd hd hnd
  · have hgap := gap_closed_of_le_lastCast hsc1 hi hd
    have hmod := mod_pos_of_not_dvd hd
    have hmodlt : i % s.resolution < s.resolution := Nat.mod_lt _ (by omega)
    have hbtw := interp_between (castSample W s (i / s.resolution)).range
      (castSample W s (i / s.resolution + 1)).range (s.resolution - i % s.resolution)
      s.resolution (by omega) (by omega)
    have hlo : i / s.resolution * s.resolution ≤ i := Nat.div_mul_le_self _ _
    have hmin0 : 0 ≤ min (castSample W s (i / s.resolution)).range
        (castSample W s (i / s.resolution + 1)).range := le_min (hcast0 _) (hcast0 _)
    have hmax1 : max (castSample W s (i / s.resolution)).range
        (castSample W s (i / s.resolution + 1)).range ≤ s.range_max :=
      max_le (hcast1 _) (hcast1 _)
    refine ⟨interpSample (castSample W s) s.resolution i, ?_, ?_, ?_, hcastr _, ?_⟩
    · rw [hbuf i (by omega), scanAt_written W s hsc1 i hi, if_neg hd]
    · exact le_trans hmin0 hbtw.1
    · exact le_trans hbtw.2 hmax1
    · intro _
      refine ⟨castSample W s (i / s.resolution), castSample W s (i / s.resolution + 1),
        ?_, ?_, hbtw.1, hbtw.2⟩
      · rw [hbuf _ (by omega), scanAt_boundary W s _ hr]
      · rw [hbuf _ hgap, scanAt_boundary W s _ hr]

/-- Witness of C17: index 3 of five samples at resolution two, in a world
whose ranges are half or all of the ray length. -/
theorem C17_witness :
    ex5by2.wf ∧ 2 ≤ ex5by2.sample_count ∧ 1 ≤ ex5by2.resolution ∧ noWrap ex5by2 ∧
    (∀ b, 0 ≤ (exHalfWorld.Raytrace b ex5by2.range_max).range ∧
      (exHalfWorld.Raytrace b ex5by2.range_max).range ≤ ex5by2.range_max) ∧
    ∃ u, Update exHalfWorld (ex5by2.sample_count + 1) ex5by2 = .ok u ∧
      ∃ x, u.model.samples[3]? = some x ∧
        0 ≤ x.range ∧ x.range ≤ ex5by2.range_max ∧
        (x.reflectance = 0 ∨ x.reflectance = 1) ∧
        (¬ ex5by2.resolution ∣ 3 →
          ∃ a b, u.model.samples[3 / ex5by2.resolution * ex5by2.resolution]? = some a ∧
            u.model.samples[(3 / ex5by2.resolution + 1) * ex5by2.resolution]? = some b ∧
            min a.range b.range ≤ x.range ∧ x.range ≤ max a.range b.range) :=
  have hrange : ∀ b, 0 ≤ (exHalfWorld.Raytrace b ex5by2.range_max).range ∧
      (exHalfWorld.Raytrace b ex5by2.range_max).range ≤ ex5by2.range_max := by
    intro b
    simp only [exHalfWorld, ex5by2, ModelLaser.new, DEFAULT_MAXRANGE]
    split <;> norm_num
  have h := C17_written_samples_bounded exHalfWorld ex5by2 (by decide) (by decide) (by decide)
    hrange
  match h.1 (by decide) with
  | ⟨u, hu⟩ =>
    ⟨by decide, by decide, by decide, by decide, hrange, u, hu, h.2 _ u hu 3 (by decide)⟩

/-- C18: with the loop counter a 32-bit unsigned integer, for every
`resolution ≥ 1` and every `sample_count` with
`sample_count - 1 + resolution < 2^32`, `Update` terminates: it returns with
`sample_count + 1` units of fuel.  The cast loop ends after
`ceil(sample_count / resolution)` iterations (it returns with one loop test
more than that and not with fewer), the outer interpolation loop ends on
every buffer of `sample_count` samples, and each inner interpolation loop
ends within `resolution` loop tests. -/
theorem C18_Update_terminates (W : World) (s : ModelLaser) (hwf : s.wf)
    (hr : 1 ≤ s.resolution)
    (hb : (s.sample_count : Int) - 1 + (s.resolution : Int) < (UINT : Int)) :
    (∃ u, Update W (s.sample_count + 1) s = .ok u ∧
      u.casts.length = (s.sample_count + s.resolution - 1) / s.resolution) ∧
    (∃ out, castLoop W s ((s.sample_count + s.resolution - 1) / s.resolution + 1) 0
      { samples := g_renew W.fresh s.samples s.sample_count
        bearing := - s.fov / 2
        casts := [] } = .ok out) ∧
    castLoop W s ((s.sample_count + s.resolution - 1) / s.resolution) 0
      { samples := g_renew W.fresh s.samples s.sample_count
        bearing := - s.fov / 2
        casts := [] } = .error .outOfFuel ∧
    (∀ buf, buf.length = s.sample_count →
      ∃ out, interpLoop s (s.sample_count + 1) s.resolution buf = .ok out) ∧
    (∀ k buf, 1 ≤ k → k * s.resolution < s.sample_count → buf.length = s.sample_count →
      ∃ out, gapLoop s (k * s.resolution) s.resolution 1 buf = .ok out) := by
  have hnw : noWrap s := by
    have hL := lastCast_le s
    have hres := hwf.2
    unfold noWrap
    omega
  refine ⟨?_, ?_, ?_, ?_, ?_⟩
  · obtain ⟨u, hu⟩ := Update_total W s hwf hr hnw
    refine ⟨u, hu, ?_⟩
    by_cases h0 : s.sample_count = 0
    · rw [Update_zero W s h0 s.sample_count] at hu
      simp only [Except.ok.injEq] at hu
      subst hu
      rw [h0, Nat.zero_add, Nat.div_eq_of_lt (by omega)]
      rfl
    · obtain ⟨hcasts, _, _, _⟩ := Update_post W s hwf hr (by omega) _ u hu
      rw [hcasts]
      simp [castLog, numCasts]
  · have h := castLoop_total_tight W s hr hnw (numCasts s) 0
      { samples := g_renew W.fresh s.samples s.sample_count, bearing := - s.fov / 2,
        casts := [] }
      (g_renew_length _ _ _) (by rw [Nat.add_zero]; exact sample_count_le_numCasts_mul hr)
    rw [Nat.zero_mul] at h
    exact h
  · have h := castLoop_outOfFuel W s hr hnw (numCasts s) 0
      { samples := g_renew W.fresh s.samples s.sample_count, bearing := - s.fov / 2,
        casts := [] }
      (g_renew_length _ _ _)
      (fun j hj => (lt_numCasts_iff hr j).1 (by omega))
    rw [Nat.zero_mul] at h
    exact h
  · intro buf hlen
    have h := interpLoop_total s hwf hr hnw s.sample_count 1 buf (le_refl 1) hlen (by omega)
    rw [Nat.one_mul] at h
    exact h
  · intro k buf hk ht hlen
    have h := gapLoop_total s hwf k hk ht (s.resolution - 1) 1 buf hlen (le_refl 1) (by omega)
    rw [Nat.sub_add_cancel hr] at h
    exact h

/-- Witness of C18: five samples at resolution two; the cast loop makes three
iterations. -/
theorem C18_witness :
    ex5by2.wf ∧ 1 ≤ ex5by2.resolution ∧
    (ex5by2.sample_count : Int) - 1 + (ex5by2.resolution : Int) < (UINT : Int) ∧
    (∃ u, Update exWorld (ex5by2.sample_count + 1) ex5by2 = .ok u ∧
      u.casts.length = (ex5by2.sample_count + ex5by2.resolution - 1) / ex5by2.resolution) ∧
    castLoop exWorld ex5by2 ((ex5by2.sample_count + ex5by2.resolution - 1) / ex5by2.resolution) 0
      { samples := g_renew exWorld.fresh ex5by2.samples ex5by2.sample_count
        bearing := - ex5by2.fov / 2
        casts := [] } = .error .outOfFuel :=
  have h := C18_Update_terminates exWorld ex5by2 (by decide) (by decide) (by decide)
  ⟨by decide, by decide, by decide, h.1, h.2.2.1⟩

/-- C19 (code bug): on `5 * 2^29 + 1` samples at resolution `5 * 2^29` the
loop counter wraps from `5 * 2^29` to `2^30`, a boundary below the
resolution; there the interpolation pass reaches `g = 2^30 + 1`, where
`t - g` underflows to `2^32 - 1`, an index outside the buffer, and `Update`
fails by that access in every world. -/
theorem C19_wrapped_counter_leaves_buffer :
    exWrap.sample_count = 2684354561 ∧ exWrap.resolution = 2684354560 ∧
    uadd 2684354560 2684354560 = 1073741824 ∧
    usub 1073741824 1073741825 = 4294967295 ∧
    ∀ W : World, Update W 4 exWrap = .error .outOfBounds := by
  refine ⟨rfl, rfl, ?_, ?_, Update_exWrap⟩
  · norm_num [uadd, UINT]
  · norm_num [usub, UINT]

/-- C20: for every model and every configuration `cfg`, `GetConfig` after
`SetConfig cfg` returns the range bounds, field of view, resolution and
interval of `cfg` together with the sample count the model had before;
`SetConfig` leaves the sample count, the sample buffer and the dirty flag as
they were, whatever `cfg.sample_count` is. -/
theorem C20_SetConfig_GetConfig (cfg : stg_laser_cfg_t) (s : ModelLaser) :
    GetConfig (SetConfig cfg s) = { cfg with sample_count := s.sample_count } ∧
    (SetConfig cfg s).sample_count = s.sample_count ∧
    (SetConfig cfg s).samples = s.samples ∧
    (SetConfig cfg s).data_dirty = s.data_dirty :=
  ⟨rfl, rfl, rfl, rfl⟩

end Stg
